import Mathlib

/-!
Verification of the dungeon-level generator (Angband variant).

The C sources embedded here are `generate.c` (director and default
rooms-and-corridors builder), `gen-util.c` (allocation helpers),
`cavern.c`, `labyrinth.c`, `room.c` and `town.c`.  Pure control flow and
grid mutation are translated into Lean functions; every call to the RNG
(`randint0`, `randint1`, `rand_range`, `Rand_normal`, `one_in_`) and every
call to the randomized empty-square search `find_empty` is given to the
embedded function as an explicit oracle argument, so each embedded
function is a deterministic image of one execution of the C code.
-/

set_option maxHeartbeats 1000000

namespace Angband

/-- Terrain feature codes.  Modelled from the spec: `cave.h` with the
`FEAT_*` constants is not among the provided sources, so the closed
feature set of spec section 3 is used as an inductive type; door lock/jam
levels and shop indices are payloads. -/
inductive Feat where
  | nothing : Feat
  | floor : Feat
  | less : Feat
  | more : Feat
  | secretDoor : Feat
  | openDoor : Feat
  | brokenDoor : Feat
  | closedDoor : ℕ → Feat
  | shop : ℕ → Feat
  | rubble : Feat
  | magma : Feat
  | quartz : Feat
  | wallExtra : Feat
  | wallInner : Feat
  | wallOuter : Feat
  | wallSolid : Feat
  | permExtra : Feat
  | permInner : Feat
  | permOuter : Feat
  | permSolid : Feat
deriving DecidableEq

/-- A dungeon level: the `struct cave` fields the generator claims touch.
The grid is a total function on coordinates; cells outside
`height × width` are irrelevant and guarded by bounds checks. -/
structure Cave where
  height : ℕ
  width : ℕ
  depth : ℕ
  feat : ℕ → ℕ → Feat

/-- Write one feature into the grid (`cave_set_feat`). -/
def cave_set_feat (c : Cave) (y x : ℕ) (f : Feat) : Cave :=
  { c with feat := fun y2 x2 => if y2 = y ∧ x2 = x then f else c.feat y2 x2 }

/-- Coordinate is inside the allocated grid. -/
def cave_in_bounds (c : Cave) (y x : ℕ) : Prop :=
  y < c.height ∧ x < c.width

instance (c : Cave) (y x : ℕ) : Decidable (cave_in_bounds c y x) := by
  unfold cave_in_bounds; infer_instance

/-- Cell holds the plain floor feature (`cave_isfloor`). -/
def cave_isfloor (c : Cave) (y x : ℕ) : Bool :=
  c.feat y x = Feat.floor

/-- Wall-like features.  Modelled from the spec: the predicate lives in the
missing `cave.c`; spec section 3 separates the passables (floors, doors,
stairs, shop entrances) from rock: the `wall-*` and `permanent-*` granite
sub-types, magma, quartz and rubble. -/
def cave_iswall (c : Cave) (y x : ℕ) : Bool :=
  match c.feat y x with
  | Feat.rubble => true
  | Feat.magma => true
  | Feat.quartz => true
  | Feat.wallExtra => true
  | Feat.wallInner => true
  | Feat.wallOuter => true
  | Feat.wallSolid => true
  | Feat.permExtra => true
  | Feat.permInner => true
  | Feat.permOuter => true
  | Feat.permSolid => true
  | _ => false

/-- Empty cell: a floor cell inside the grid.  Modelled from the spec:
`cave_isempty` lives in the missing `cave.c`; objects and monsters are not
part of this embedding, so the object/monster-free conjuncts of the C
predicate are dropped (placing a stair makes the cell non-floor, which is
the part the generator proofs rely on). -/
def cave_isempty (c : Cave) (y x : ℕ) : Bool :=
  decide (cave_in_bounds c y x) && cave_isfloor c y x

/-- Fill an inclusive rectangle with a feature (`fill_rectangle`):
every cell of the rectangle ends holding `f`, all other cells keep their
old feature. -/
def fill_rectangle (c : Cave) (y1 x1 y2 x2 : ℕ) (f : Feat) : Cave :=
  { c with feat := fun y x =>
      if y1 ≤ y ∧ y ≤ y2 ∧ x1 ≤ x ∧ x ≤ x2 then f else c.feat y x }

/-- Fill the edges of an inclusive rectangle with a feature
(`draw_rectangle`). -/
def draw_rectangle (c : Cave) (y1 x1 y2 x2 : ℕ) (f : Feat) : Cave :=
  { c with feat := fun y x =>
      if (y1 ≤ y ∧ y ≤ y2 ∧ (x = x1 ∨ x = x2)) ∨
         (x1 ≤ x ∧ x ≤ x2 ∧ (y = y1 ∨ y = y2)) then f else c.feat y x }

/-- Number of cells of the grid holding feature `f`. -/
def countFeat (c : Cave) (f : Feat) : ℕ :=
  ((Finset.range c.height ×ˢ Finset.range c.width).filter
    (fun p => c.feat p.1 p.2 = f)).card

theorem countFeat_set_feat_self (c : Cave) (y x : ℕ) (f : Feat)
    (hy : y < c.height) (hx : x < c.width) (hold : c.feat y x ≠ f) :
    countFeat (cave_set_feat c y x f) f = countFeat c f + 1 := by
  unfold countFeat cave_set_feat
  have hset :
      ((Finset.range c.height ×ˢ Finset.range c.width).filter
        (fun p => (if p.1 = y ∧ p.2 = x then f else c.feat p.1 p.2) = f)) =
      insert (y, x)
        ((Finset.range c.height ×ˢ Finset.range c.width).filter
          (fun p => c.feat p.1 p.2 = f)) := by
    ext p
    rcases p with ⟨py, px⟩
    by_cases hp : py = y ∧ px = x
    · rcases hp with ⟨hp1, hp2⟩
      subst hp1; subst hp2
      simp [Finset.mem_filter, Finset.mem_product, Finset.mem_range, hy, hx]
    · have hne : (py, px) ≠ (y, x) := by
        intro hcontra
        exact hp ⟨congrArg Prod.fst hcontra, congrArg Prod.snd hcontra⟩
      simp only [Finset.mem_filter, Finset.mem_insert, hne, false_or,
        Finset.mem_product, Finset.mem_range]
      constructor
      · rintro ⟨hb, hf⟩
        rw [if_neg hp] at hf
        exact ⟨hb, hf⟩
      · rintro ⟨hb, hf⟩
        rw [if_neg hp]
        exact ⟨hb, hf⟩
  rw [hset, Finset.card_insert_of_not_mem]
  simp [Finset.mem_filter, hold]

theorem countFeat_set_feat_other (c : Cave) (y x : ℕ) (f g : Feat)
    (hgf : g ≠ f) (hgold : c.feat y x ≠ g) :
    countFeat (cave_set_feat c y x f) g = countFeat c g := by
  unfold countFeat cave_set_feat
  congr 1
  apply Finset.filter_congr
  intro p _
  rcases p with ⟨py, px⟩
  by_cases hp : py = y ∧ px = x
  · rcases hp with ⟨hp1, hp2⟩
    subst hp1; subst hp2
    simp [hgf.symm, hgold]
  · simp [hp]

/-- Return the number of walls (0-8) adjacent to this square
(`count_adj_walls` in cavern.c): every one of the 8 neighbours that is not
a floor cell of the cave argument counts as a wall. -/
def count_adj_walls (c : Cave) (y x : ℕ) : ℕ :=
  List.countP (fun p => !cave_isfloor c p.1 p.2)
    [(y - 1, x - 1), (y - 1, x), (y - 1, x + 1),
     (y, x - 1), (y, x + 1),
     (y + 1, x - 1), (y + 1, x), (y + 1, x + 1)]

/-- One pass of the cellular-automaton rules (`mutate_cavern` in cavern.c).
The function takes the cave `c` it was called on and the globally current
cave `g`, because the C body computes neighbour counts from its argument
`c` but reads the preserved feature in the middle branch from the global
`cave`.  Interior cells (1 ≤ y ≤ h−2, 1 ≤ x ≤ w−2) are rewritten from the
`temp` buffer; all other cells are untouched. -/
def mutate_cavern (c g : Cave) : Cave :=
  { c with feat := fun y x =>
      if 1 ≤ y ∧ y < c.height - 1 ∧ 1 ≤ x ∧ x < c.width - 1 then
        let count := count_adj_walls c y x
        if count > 5 then Feat.wallSolid
        else if count < 4 then Feat.floor
        else g.feat y x
      else c.feat y x }

/-- Claim C10: a single `mutate_cavern` pass writes only interior cells
(1 ≤ y ≤ h−2, 1 ≤ x ≤ w−2); each interior cell becomes solid wall when
more than 5 of its 8 neighbours are non-floor, floor when fewer than 4
are, and otherwise receives the feature read from the global cave `g` —
so only under the aliasing precondition `g = c` is the middle branch a
preservation of the argument cave's feature. -/
theorem mutate_cavern_spec (c g : Cave) (y x : ℕ) :
    (¬(1 ≤ y ∧ y < c.height - 1 ∧ 1 ≤ x ∧ x < c.width - 1) →
      (mutate_cavern c g).feat y x = c.feat y x) ∧
    ((1 ≤ y ∧ y < c.height - 1 ∧ 1 ≤ x ∧ x < c.width - 1) →
      (5 < count_adj_walls c y x →
        (mutate_cavern c g).feat y x = Feat.wallSolid) ∧
      (count_adj_walls c y x < 4 →
        (mutate_cavern c g).feat y x = Feat.floor) ∧
      (4 ≤ count_adj_walls c y x → count_adj_walls c y x ≤ 5 →
        (mutate_cavern c g).feat y x = g.feat y x) ∧
      (g = c → 4 ≤ count_adj_walls c y x → count_adj_walls c y x ≤ 5 →
        (mutate_cavern c g).feat y x = c.feat y x)) := by
  constructor
  · intro hout
    simp [mutate_cavern, hout]
  · intro hin
    refine ⟨?_, ?_, ?_, ?_⟩
    · intro hgt
      have h4 : ¬ count_adj_walls c y x < 4 := by omega
      simp [mutate_cavern, hin, hgt]
    · intro hlt
      have hng : ¬ 5 < count_adj_walls c y x := by omega
      simp [mutate_cavern, hin, hng, hlt]
    · intro h4 h5
      have hng : ¬ 5 < count_adj_walls c y x := by omega
      have hnl : ¬ count_adj_walls c y x < 4 := by omega
      simp [mutate_cavern, hin, hng, hnl]
    · intro hg h4 h5
      have hng : ¬ 5 < count_adj_walls c y x := by omega
      have hnl : ¬ count_adj_walls c y x < 4 := by omega
      subst hg
      simp [mutate_cavern, hin, hng, hnl]

/-- Witness cave for the mutate-cavern theorem: a 4×4 cave whose interior
cell (1,1) has exactly 4 non-floor neighbours, exercising the
preservation branch. -/
def mutateWitnessCave : Cave :=
  { height := 4, width := 4, depth := 20,
    feat := fun y x =>
      if y = 0 ∨ x = 0 then Feat.wallSolid else Feat.floor }

theorem mutate_cavern_spec_witness :
    (mutate_cavern mutateWitnessCave mutateWitnessCave).feat 1 1 =
      mutateWitnessCave.feat 1 1 ∧
    (mutate_cavern mutateWitnessCave mutateWitnessCave).feat 0 2 =
      mutateWitnessCave.feat 0 2 := by
  have hin : 1 ≤ 1 ∧ 1 < mutateWitnessCave.height - 1 ∧ 1 ≤ 1 ∧
      1 < mutateWitnessCave.width - 1 := by
    refine ⟨le_refl 1, ?_, le_refl 1, ?_⟩ <;> decide
  have hout : ¬(1 ≤ 0 ∧ 0 < mutateWitnessCave.height - 1 ∧ 1 ≤ 2 ∧
      2 < mutateWitnessCave.width - 1) := by decide
  refine ⟨?_, ?_⟩
  · exact (mutate_cavern_spec mutateWitnessCave mutateWitnessCave 1 1).2 hin
      |>.2.2.2 rfl (by decide) (by decide)
  · exact (mutate_cavern_spec mutateWitnessCave mutateWitnessCave 0 2).1 hout

/-- Dungeon allocation "set" constants from gen-util.h. -/
def SET_CORR : ℕ := 1

/-- Room allocation flag from gen-util.h. -/
def SET_ROOM : ℕ := 2

/-- Allocation anywhere (gen-util.h). -/
def SET_BOTH : ℕ := 3

/-- One result of the randomized empty-square search `find_empty`,
together with the in-room test `c->info[y][x] & CAVE_ROOM` made on it. -/
structure Spot where
  y : ℕ
  x : ℕ
  room : Bool
deriving DecidableEq

/-- The break test of `alloc_object`'s spot-search loop: a corridor spot
is accepted when `set` has the `SET_CORR` bit, a room spot when it has
the `SET_ROOM` bit. -/
def spot_ok (set : ℕ) (s : Spot) : Bool :=
  (decide (set &&& SET_CORR ≠ 0) && !s.room) ||
  (decide (set &&& SET_ROOM ≠ 0) && s.room)

/-- The `while (tries < 2000)` spot-search loop of `alloc_object`:
`tries` is incremented, the spot indexed by the previous value is drawn,
and the loop breaks when the spot qualifies.  Returns the final value of
`tries`. -/
def alloc_object_loop (qual : ℕ → Bool) (tries : ℕ) : ℕ :=
  if h : tries < 2000 then
    if qual tries then tries + 1 else alloc_object_loop qual (tries + 1)
  else tries
termination_by 2000 - tries

/-- The spot search of `alloc_object`: the function returns `none`
(C `FALSE`, nothing placed) when the loop left `tries` at 2000, and
otherwise hands the accepted spot (drawn at index `tries − 1`) to the
type-specific placement `switch`. -/
def alloc_object (set : ℕ) (spots : ℕ → Spot) : Option Spot :=
  let t := alloc_object_loop (fun i => spot_ok set (spots i)) 0
  if t = 2000 then none else some (spots (t - 1))

theorem alloc_object_loop_of_first_aux (qual : ℕ → Bool) (i : ℕ)
    (hi : i < 2000) (hq : qual i = true) :
    ∀ d t, i - t = d → t ≤ i →
      (∀ j, t ≤ j → j < i → qual j = false) →
      alloc_object_loop qual t = i + 1 := by
  intro d
  induction d with
  | zero =>
    intro t hd hti hnone
    have hti2 : t = i := by omega
    subst hti2
    rw [alloc_object_loop, dif_pos hi, hq]
    rfl
  | succ d ih =>
    intro t hd hti hnone
    have hlt : t < i := by omega
    rw [alloc_object_loop, dif_pos (by omega), hnone t (le_refl t) hlt]
    exact ih (t + 1) (by omega) (by omega)
      (fun j hj hji => hnone j (by omega) hji)

theorem alloc_object_loop_of_first (qual : ℕ → Bool) (t i : ℕ)
    (hti : t ≤ i) (hi : i < 2000)
    (hnone : ∀ j, t ≤ j → j < i → qual j = false) (hq : qual i = true) :
    alloc_object_loop qual t = i + 1 :=
  alloc_object_loop_of_first_aux qual i hi hq (i - t) t rfl hti hnone

theorem alloc_object_loop_of_none_aux (qual : ℕ → Bool) :
    ∀ d t, 2000 - t = d → t ≤ 2000 →
      (∀ j, t ≤ j → j < 2000 → qual j = false) →
      alloc_object_loop qual t = 2000 := by
  intro d
  induction d with
  | zero =>
    intro t hd ht hnone
    have ht2 : t = 2000 := by omega
    subst ht2
    rw [alloc_object_loop, dif_neg (by omega)]
  | succ d ih =>
    intro t hd ht hnone
    have hlt : t < 2000 := by omega
    rw [alloc_object_loop, dif_pos hlt, hnone t (le_refl t) hlt]
    exact ih (t + 1) (by omega) (by omega)
      (fun j hj hj2 => hnone j (by omega) hj2)

theorem alloc_object_loop_of_none (qual : ℕ → Bool) (t : ℕ)
    (ht : t ≤ 2000) (hnone : ∀ j, t ≤ j → j < 2000 → qual j = false) :
    alloc_object_loop qual t = 2000 :=
  alloc_object_loop_of_none_aux qual (2000 - t) t rfl ht hnone

/-- Claim C9: `alloc_object` returns FALSE and places nothing exactly
when its spot-search loop reaches 2000 iterations, which happens exactly
when none of the spots drawn on the first 1999 iterations qualifies; in
particular a qualifying spot first found on the 2000th iteration (index
1999) is discarded, while the first qualifying spot found on iteration
k ≤ 1999 (index k−1 ≤ 1998) is always handed to the type-specific
placement routine. -/
theorem alloc_object_spec (set : ℕ) (spots : ℕ → Spot) :
    (alloc_object set spots = none ↔
      ∀ i < 1999, spot_ok set (spots i) = false) ∧
    (∀ i < 1999, (∀ j < i, spot_ok set (spots j) = false) →
      spot_ok set (spots i) = true →
      alloc_object set spots = some (spots i)) ∧
    ((∀ j < 1999, spot_ok set (spots j) = false) →
      spot_ok set (spots 1999) = true →
      alloc_object set spots = none) := by
  refine ⟨⟨?_, ?_⟩, ?_, ?_⟩
  · intro hnone i hi
    by_contra hq
    have hq2 : spot_ok set (spots i) = true := by
      cases h : spot_ok set (spots i)
      · exact absurd h hq
      · rfl
    rcases Nat.lt_or_ge i 1999 with hi2 | hi2
    · have hex : ∃ j, spot_ok set (spots j) = true := ⟨i, hq2⟩
      have hfind := Nat.find_spec hex
      set i0 := Nat.find hex with hi0
      have hi0le : i0 ≤ i := Nat.find_le hq2
      have hmin : ∀ j, 0 ≤ j → j < i0 → spot_ok set (spots j) = false := by
        intro j _ hj
        have := Nat.find_min hex hj
        cases h : spot_ok set (spots j)
        · rfl
        · exact absurd h this
      have hloop := alloc_object_loop_of_first
        (fun k => spot_ok set (spots k)) 0 i0 (Nat.zero_le i0)
        (by omega) hmin hfind
      unfold alloc_object at hnone
      rw [hloop] at hnone
      have : ¬ (i0 + 1 = 2000) := by omega
      rw [if_neg this] at hnone
      exact Option.some_ne_none _ hnone
    · omega
  · intro hnone
    by_cases h1999 : spot_ok set (spots 1999) = true
    · have hloop := alloc_object_loop_of_first
        (fun k => spot_ok set (spots k)) 0 1999 (Nat.zero_le 1999)
        (by omega) (fun j _ hj => hnone j hj) h1999
      unfold alloc_object
      rw [hloop, if_pos rfl]
    · have hloop := alloc_object_loop_of_none
        (fun k => spot_ok set (spots k)) 0 (by omega) ?_
      · unfold alloc_object
        rw [hloop, if_pos rfl]
      · intro j _ hj
        rcases Nat.lt_or_ge j 1999 with hj2 | hj2
        · exact hnone j hj2
        · have hj1999 : j = 1999 := by omega
          subst hj1999
          show spot_ok set (spots 1999) = false
          cases h : spot_ok set (spots 1999)
          · rfl
          · exact absurd h h1999
  · intro i hi hbefore hq
    have hloop := alloc_object_loop_of_first
      (fun k => spot_ok set (spots k)) 0 i (Nat.zero_le i) (by omega)
      (fun j _ hj => hbefore j hj) hq
    unfold alloc_object
    rw [hloop, if_neg (by omega)]
    simp
  · intro hbefore hq
    have hloop := alloc_object_loop_of_first
      (fun k => spot_ok set (spots k)) 0 1999 (Nat.zero_le 1999)
      (by omega) (fun j _ hj => hbefore j hj) hq
    unfold alloc_object
    rw [hloop, if_pos rfl]

/-- Witness for the alloc-object theorem: with `set = SET_ROOM` and a
stream whose first spot is in a room, the spot drawn on the first
iteration is placed. -/
theorem alloc_object_spec_witness :
    alloc_object SET_ROOM (fun _ => ⟨3, 4, true⟩) =
      some (⟨3, 4, true⟩ : Spot) := by
  have h := (alloc_object_spec SET_ROOM (fun _ => ⟨3, 4, true⟩)).2.1 0
    (by omega) (fun j hj => absurd hj (Nat.not_lt_zero j)) (by decide)
  exact h

/-- The numerator/denominator loop of `build_greater_vault` (room.c):
starting from 2/3 at `i = 90`, numerator and denominator are multiplied
by 2 and 3 for every `i` in 90, 80, 70, … that exceeds the depth. -/
def gvLoop (depth : ℕ) (i : ℕ) (nd : ℕ × ℕ) : ℕ × ℕ :=
  if depth < i then gvLoop depth (i - 10) (2 * nd.1, 3 * nd.2) else nd
termination_by i
decreasing_by omega

/-- Numerator and denominator of the greater-vault depth check at a given
depth. -/
def gvND (depth : ℕ) : ℕ × ℕ :=
  gvLoop depth 90 (2, 3)

/-- The depth-check part of `build_greater_vault` (room.c): it fails
immediately when a room center has already been recorded
(`get_dun()->cent_n > 0`), and otherwise passes exactly when the
`randint0(denominator)` roll is below the numerator.  The vault stamping
that follows a passed check is outside this claim. -/
def build_greater_vault (cent_n depth roll : ℕ) : Bool :=
  if 0 < cent_n then false
  else decide (roll < (gvND depth).1)

/-- Number of rolls in `[0, denominator)` on which the greater-vault
depth check passes; the pass probability is this over the denominator. -/
def gvPassCount (depth : ℕ) : ℕ :=
  ((Finset.range (gvND depth).2).filter
    (fun r => build_greater_vault 0 depth r = true)).card

theorem gvLoop_shift (d : ℕ) :
    ∀ i n m, d < i →
      gvLoop d i (n, m) =
        (2 * (gvLoop (d + 10) i (n, m)).1,
         3 * (gvLoop (d + 10) i (n, m)).2) := by
  intro i
  induction i using Nat.strong_induction_on with
  | _ i ih =>
    intro n m hdi
    by_cases h2 : d + 10 < i
    · rw [gvLoop, if_pos hdi]
      conv_rhs => rw [gvLoop, if_pos h2]
      exact ih (i - 10) (by omega) (2 * n) (3 * m) (by omega)
    · rw [gvLoop, if_pos hdi]
      conv_rhs => rw [gvLoop, if_neg h2]
      rw [gvLoop, if_neg (by omega)]

theorem gvND_of_90_le (d : ℕ) (h : 90 ≤ d) : gvND d = (2, 3) := by
  rw [gvND, gvLoop, if_neg (by omega)]

theorem gvND_of_80_le (d : ℕ) (h1 : 80 ≤ d) (h2 : d ≤ 89) :
    gvND d = (4, 9) := by
  rw [gvND, gvLoop, if_pos (by omega)]
  norm_num
  rw [gvLoop, if_neg (by omega)]

theorem gvND_of_70_le (d : ℕ) (h1 : 70 ≤ d) (h2 : d ≤ 79) :
    gvND d = (8, 27) := by
  rw [gvND, gvLoop, if_pos (by omega)]
  norm_num
  rw [gvLoop, if_pos (by omega)]
  norm_num
  rw [gvLoop, if_neg (by omega)]

theorem range_filter_lt_card (n m : ℕ) :
    ((Finset.range m).filter (fun r => r < n)).card = min n m := by
  have h : (Finset.range m).filter (fun r => r < n) =
      Finset.range (min n m) := by
    ext r
    simp only [Finset.mem_filter, Finset.mem_range]
    omega
  rw [h, Finset.card_range]

theorem gvPassCount_eq (d : ℕ) :
    gvPassCount d = min (gvND d).1 (gvND d).2 := by
  unfold gvPassCount
  have h : ((Finset.range (gvND d).2).filter
      (fun r => build_greater_vault 0 d r = true)) =
      ((Finset.range (gvND d).2).filter (fun r => r < (gvND d).1)) := by
    apply Finset.filter_congr
    intro r _
    simp [build_greater_vault]
  rw [h, range_filter_lt_card]

/-- Claim C6: a greater vault is attempted only as the first room of the
level (any recorded room center makes it fail immediately), and the depth
check passes with probability 2/3 at depth 100 and beyond, the success
ratio gaining a factor 2/3 (numerator ×2, denominator ×3) for each 10
levels shallower: 4/9 at depths 80–89, 8/27 at 70–79, and so on. -/
theorem build_greater_vault_spec (cent_n d roll : ℕ) :
    (0 < cent_n → build_greater_vault cent_n d roll = false) ∧
    (build_greater_vault 0 d roll = true ↔ roll < (gvND d).1) ∧
    (100 ≤ d → gvND d = (2, 3) ∧ gvPassCount d = 2 ∧
      (gvPassCount d : ℚ) / ((gvND d).2 : ℚ) = 2 / 3) ∧
    (80 ≤ d → d ≤ 89 → gvND d = (4, 9) ∧ gvPassCount d = 4 ∧
      (gvPassCount d : ℚ) / ((gvND d).2 : ℚ) = 4 / 9) ∧
    (70 ≤ d → d ≤ 79 → gvND d = (8, 27) ∧ gvPassCount d = 8 ∧
      (gvPassCount d : ℚ) / ((gvND d).2 : ℚ) = 8 / 27) ∧
    (d ≤ 89 →
      gvND d = (2 * (gvND (d + 10)).1, 3 * (gvND (d + 10)).2)) := by
  refine ⟨?_, ?_, ?_, ?_, ?_, ?_⟩
  · intro h
    rw [build_greater_vault, if_pos h]
  · simp [build_greater_vault]
  · intro h
    have hnd := gvND_of_90_le d (by omega)
    have hpc : gvPassCount d = 2 := by rw [gvPassCount_eq, hnd]; decide
    refine ⟨hnd, hpc, ?_⟩
    rw [hpc, hnd]
    norm_num
  · intro h1 h2
    have hnd := gvND_of_80_le d h1 h2
    have hpc : gvPassCount d = 4 := by rw [gvPassCount_eq, hnd]; decide
    refine ⟨hnd, hpc, ?_⟩
    rw [hpc, hnd]
    norm_num
  · intro h1 h2
    have hnd := gvND_of_70_le d h1 h2
    have hpc : gvPassCount d = 8 := by rw [gvPassCount_eq, hnd]; decide
    refine ⟨hnd, hpc, ?_⟩
    rw [hpc, hnd]
    norm_num
  · intro h
    exact gvLoop_shift d 90 2 3 (by omega)

/-- Witness for the greater-vault theorem: at depth 100 the check has
ratio 2/3 and a recorded room center vetoes the attempt; at depth 85 the
ratio is 4/9. -/
theorem build_greater_vault_spec_witness :
    build_greater_vault 1 100 0 = false ∧ gvND 100 = (2, 3) ∧
    gvND 85 = (4, 9) ∧ gvPassCount 85 = 4 := by
  refine ⟨(build_greater_vault_spec 1 100 0).1 (by omega),
    ((build_greater_vault_spec 1 100 0).2.2.1 (by omega)).1,
    ((build_greater_vault_spec 1 85 0).2.2.2.1 (by omega) (by omega)).1,
    ((build_greater_vault_spec 1 85 0).2.2.2.1 (by omega) (by omega)).2.1⟩

/-- Random draws of one `build_simple` call (room.c): the four
`randint1` extents (4/11/3/11), the light roll, and the two variant
rolls `one_in_(20)` (pillars) and `one_in_(50)` (ragged edges). -/
structure SimpleRolls where
  up : ℕ
  left : ℕ
  down : ℕ
  right : ℕ
  light : Bool
  pillar : Bool
  ragged : Bool
deriving DecidableEq

/-- Interior rectangle `(y1, x1, y2, x2)` of a simple room built around
anchor `(y0, x0)`: `y1 = y0 - randint1(4)`, `x1 = x0 - randint1(11)`,
`y2 = y0 + randint1(3)`, `x2 = x0 + randint1(11)`. -/
def simple_rect (y0 x0 : ℕ) (r : SimpleRolls) : ℕ × ℕ × ℕ × ℕ :=
  (y0 - r.up, x0 - r.left, y0 + r.down, x0 + r.right)

/-- The grid writes of `build_simple` (room.c): outer walls around the
interior rectangle, floor inside, then optionally the pillar variant
(inner walls at every second coordinate) or the ragged-edge variant
(inner walls at every second boundary coordinate two cells away from the
corners).  The `generate_room` info-flag marking and the light flag do
not touch features and are not modelled. -/
def build_simple (c : Cave) (y0 x0 : ℕ) (r : SimpleRolls) : Cave :=
  match simple_rect y0 x0 r with
  | (y1, x1, y2, x2) =>
    let c1 := draw_rectangle c (y1 - 1) (x1 - 1) (y2 + 1) (x2 + 1)
      Feat.wallOuter
    let c2 := fill_rectangle c1 y1 x1 y2 x2 Feat.floor
    if r.pillar then
      { c2 with feat := fun y x =>
          if y1 ≤ y ∧ y ≤ y2 ∧ x1 ≤ x ∧ x ≤ x2 ∧
             (y - y1) % 2 = 0 ∧ (x - x1) % 2 = 0
          then Feat.wallInner else c2.feat y x }
    else if r.ragged then
      { c2 with feat := fun y x =>
          if (y1 + 2 ≤ y ∧ y ≤ y2 - 2 ∧ (y - (y1 + 2)) % 2 = 0 ∧
              (x = x1 ∨ x = x2)) ∨
             (x1 + 2 ≤ x ∧ x ≤ x2 - 2 ∧ (x - (x1 + 2)) % 2 = 0 ∧
              (y = y1 ∨ y = y2))
          then Feat.wallInner else c2.feat y x }
    else c2

/-- Counterexample to claim C7: the simple-room extents are
`randint1(11)` on each side of the anchor, so rolling 11 on both sides
(an input every `randint1(11)` call can produce) gives an interior width
of 23, not at most 22. -/
theorem build_simple_width_counterexample :
    (simple_rect 12 15 ⟨4, 11, 3, 11, false, false, false⟩).2.2.2 -
      (simple_rect 12 15 ⟨4, 11, 3, 11, false, false, false⟩).2.1 + 1 = 23 ∧
    ¬((simple_rect 12 15 ⟨4, 11, 3, 11, false, false, false⟩).2.2.2 -
      (simple_rect 12 15 ⟨4, 11, 3, 11, false, false, false⟩).2.1 + 1 ≤ 22) := by
  constructor
  · rfl
  · decide

/-- Blank cave used to instantiate the simple-room theorem. -/
def simpleWitnessCave : Cave :=
  { height := 30, width := 40, depth := 10,
    feat := fun _ _ => Feat.wallExtra }

theorem fill_rectangle_feat_in (c : Cave) (y1 x1 y2 x2 : ℕ) (f : Feat)
    (y x : ℕ) (h : y1 ≤ y ∧ y ≤ y2 ∧ x1 ≤ x ∧ x ≤ x2) :
    (fill_rectangle c y1 x1 y2 x2 f).feat y x = f := by
  simp only [fill_rectangle]
  rw [if_pos h]

theorem fill_rectangle_feat_out (c : Cave) (y1 x1 y2 x2 : ℕ) (f : Feat)
    (y x : ℕ) (h : ¬(y1 ≤ y ∧ y ≤ y2 ∧ x1 ≤ x ∧ x ≤ x2)) :
    (fill_rectangle c y1 x1 y2 x2 f).feat y x = c.feat y x := by
  simp only [fill_rectangle]
  rw [if_neg h]

theorem draw_rectangle_feat_edge (c : Cave) (y1 x1 y2 x2 : ℕ) (f : Feat)
    (y x : ℕ)
    (h : (y1 ≤ y ∧ y ≤ y2 ∧ (x = x1 ∨ x = x2)) ∨
         (x1 ≤ x ∧ x ≤ x2 ∧ (y = y1 ∨ y = y2))) :
    (draw_rectangle c y1 x1 y2 x2 f).feat y x = f := by
  simp only [draw_rectangle]
  rw [if_pos h]

/-- Claim C7 (amended): a simple room is a rectangle of interior height
3–8 and interior width 3–23 whose interior strictly surrounds the anchor
`(y0, x0)`; with both variant rolls failed the interior is all floor,
and in every variant the surrounding ring one cell outside the interior
is outer wall. -/
theorem build_simple_spec (c : Cave) (y0 x0 : ℕ) (r : SimpleRolls)
    (hup1 : 1 ≤ r.up) (hup4 : r.up ≤ 4)
    (hdn1 : 1 ≤ r.down) (hdn3 : r.down ≤ 3)
    (hlf1 : 1 ≤ r.left) (hlf11 : r.left ≤ 11)
    (hrt1 : 1 ≤ r.right) (hrt11 : r.right ≤ 11)
    (hy0 : r.up + 1 ≤ y0) (hx0 : r.left + 1 ≤ x0) :
    match simple_rect y0 x0 r with
    | (y1, x1, y2, x2) =>
      (3 ≤ y2 - y1 + 1 ∧ y2 - y1 + 1 ≤ 8) ∧
      (3 ≤ x2 - x1 + 1 ∧ x2 - x1 + 1 ≤ 23) ∧
      (y1 < y0 ∧ y0 < y2 ∧ x1 < x0 ∧ x0 < x2) ∧
      (r.pillar = false → r.ragged = false →
        ∀ y x, y1 ≤ y → y ≤ y2 → x1 ≤ x → x ≤ x2 →
          (build_simple c y0 x0 r).feat y x = Feat.floor) ∧
      (∀ x, x1 - 1 ≤ x → x ≤ x2 + 1 →
        (build_simple c y0 x0 r).feat (y1 - 1) x = Feat.wallOuter ∧
        (build_simple c y0 x0 r).feat (y2 + 1) x = Feat.wallOuter) := by
  simp only [simple_rect]
  refine ⟨⟨by omega, by omega⟩, ⟨by omega, by omega⟩,
    ⟨by omega, by omega, by omega, by omega⟩, ?_, ?_⟩
  · intro hp hr y x h1 h2 h3 h4
    simp only [build_simple, simple_rect, hp, hr, Bool.false_eq_true,
      if_false]
    exact fill_rectangle_feat_in _ _ _ _ _ _ _ _ ⟨h1, h2, h3, h4⟩
  · intro x hx1 hx2
    have hbase : ∀ y, ¬(y0 - r.up ≤ y ∧ y ≤ y0 + r.down ∧
        x0 - r.left ≤ x ∧ x ≤ x0 + r.right) →
        ((y = y0 - r.up - 1 ∧ x0 - r.left - 1 ≤ x ∧
          x ≤ x0 + r.right + 1) ∨
         (y = y0 + r.down + 1 ∧ x0 - r.left - 1 ≤ x ∧
          x ≤ x0 + r.right + 1)) →
        (fill_rectangle (draw_rectangle c (y0 - r.up - 1)
          (x0 - r.left - 1) (y0 + r.down + 1) (x0 + r.right + 1)
          Feat.wallOuter) (y0 - r.up) (x0 - r.left) (y0 + r.down)
          (x0 + r.right) Feat.floor).feat y x = Feat.wallOuter := by
      intro y hout hedge
      rw [fill_rectangle_feat_out _ _ _ _ _ _ _ _ hout]
      apply draw_rectangle_feat_edge
      right
      rcases hedge with ⟨hy, ha, hb⟩ | ⟨hy, ha, hb⟩ <;>
        exact ⟨ha, hb, by omega⟩
    constructor
    · cases hp : r.pillar with
      | true =>
        simp only [build_simple, simple_rect, hp, if_true]
        rw [if_neg (by omega)]
        exact hbase _ (by omega) (Or.inl ⟨rfl, hx1, hx2⟩)
      | false =>
        cases hr : r.ragged with
        | true =>
          simp only [build_simple, simple_rect, hp, hr,
            Bool.false_eq_true, if_false, if_true]
          rw [if_neg (by omega)]
          exact hbase _ (by omega) (Or.inl ⟨rfl, hx1, hx2⟩)
        | false =>
          simp only [build_simple, simple_rect, hp, hr,
            Bool.false_eq_true, if_false]
          exact hbase _ (by omega) (Or.inl ⟨rfl, hx1, hx2⟩)
    · cases hp : r.pillar with
      | true =>
        simp only [build_simple, simple_rect, hp, if_true]
        rw [if_neg (by omega)]
        exact hbase _ (by omega) (Or.inr ⟨rfl, hx1, hx2⟩)
      | false =>
        cases hr : r.ragged with
        | true =>
          simp only [build_simple, simple_rect, hp, hr,
            Bool.false_eq_true, if_false, if_true]
          rw [if_neg (by omega)]
          exact hbase _ (by omega) (Or.inr ⟨rfl, hx1, hx2⟩)
        | false =>
          simp only [build_simple, simple_rect, hp, hr,
            Bool.false_eq_true, if_false]
          exact hbase _ (by omega) (Or.inr ⟨rfl, hx1, hx2⟩)

/-- Witness for the simple-room theorem: a base-variant room of rolls
(2,3,2,4) around anchor (10,15) has a floor interior containing the
anchor. -/
theorem build_simple_spec_witness :
    (build_simple simpleWitnessCave 10 15
      ⟨2, 3, 2, 4, false, false, false⟩).feat 10 15 = Feat.floor := by
  have h := build_simple_spec simpleWitnessCave 10 15
    ⟨2, 3, 2, 4, false, false, false⟩ (by decide) (by decide) (by decide)
    (by decide) (by decide) (by decide) (by decide) (by decide)
    (by decide) (by decide)
  exact h.2.2.2.1 rfl rfl 10 15 (by decide) (by decide) (by decide)
    (by decide)

/-- Feature actually written by `place_stairs` (gen-util.c) when asked
for `f`: down stairs in town (depth 0), up stairs on a quest depth or at
depth ≥ MAX_DEPTH − 1, otherwise the requested feature.  `is_quest` and
`MAX_DEPTH` live outside the provided sources and are parameters. -/
def place_stairs_feat (quest : ℕ → Bool) (maxDepth : ℕ) (depth : ℕ)
    (f : Feat) : Feat :=
  if depth = 0 then Feat.more
  else if quest depth || decide (maxDepth - 1 ≤ depth) then Feat.less
  else f

/-- Place stairs of the requested type at `(y, x)` (`place_stairs`). -/
def place_stairs (quest : ℕ → Bool) (maxDepth : ℕ) (c : Cave)
    (y x : ℕ) (f : Feat) : Cave :=
  cave_set_feat c y x (place_stairs_feat quest maxDepth c.depth f)

/-- Player stair-creation state consulted by `new_player_spot`
(gen-util.c). -/
structure PlayerFlags where
  birth_no_stairs : Bool
  create_down_stair : Bool
  create_up_stair : Bool
deriving DecidableEq

/-- Stair feature that `new_player_spot` writes directly (via
`cave_set_feat`, not via `place_stairs`) at the player's starting cell,
if any. -/
def new_player_spot_feat (pf : PlayerFlags) : Option Feat :=
  if pf.birth_no_stairs then none
  else if pf.create_down_stair then some Feat.more
  else if pf.create_up_stair then some Feat.less
  else none

/-- Grid and flag effect of `new_player_spot` (gen-util.c): the starting
cell found by `cave_find_in_range` is given as the `spot` oracle; the
stair the player "came down", if allowed and necessary, is written
directly with `cave_set_feat` and the corresponding flag cleared. -/
def new_player_spot (c : Cave) (pf : PlayerFlags) (spot : ℕ × ℕ) :
    Cave × PlayerFlags :=
  if pf.birth_no_stairs then (c, pf)
  else if pf.create_down_stair then
    (cave_set_feat c spot.1 spot.2 Feat.more,
     { pf with create_down_stair := false })
  else if pf.create_up_stair then
    (cave_set_feat c spot.1 spot.2 Feat.less,
     { pf with create_up_stair := false })
  else (c, pf)

/-- Counterexample to claim C5: not every stair placement goes through
`place_stairs`.  On quest depth 99 with `create_down_stair` set,
`new_player_spot` writes a down staircase directly with `cave_set_feat`,
while `place_stairs` at that depth turns every request into an up
staircase — so the two placement paths disagree and the
`new_player_spot` (and town) stairs bypass the override. -/
theorem place_stairs_routing_counterexample :
    ((new_player_spot
        { height := 3, width := 3, depth := 99,
          feat := fun _ _ => Feat.floor }
        ⟨false, true, false⟩ (1, 1)).1.feat 1 1 = Feat.more) ∧
    place_stairs_feat (fun d => d == 99) 128 99 Feat.more = Feat.less ∧
    Feat.more ≠ Feat.less := by
  refine ⟨?_, by decide, by decide⟩
  simp [new_player_spot, cave_set_feat]

/-- Claim C5 (amended): `place_stairs` overrides the requested stair
type — always a down staircase at depth 0, always an up staircase on a
quest depth or at depth ≥ MAX_DEPTH − 1, and the requested type only
otherwise — and the stair-allocation paths (`alloc_stairs`,
`place_random_stairs`) write exactly that feature; but `new_player_spot`
and the town builder place their stairs directly with `cave_set_feat`,
bypassing the override. -/
theorem place_stairs_override_spec (quest : ℕ → Bool) (maxDepth : ℕ)
    (depth : ℕ) (f : Feat) :
    (depth = 0 → place_stairs_feat quest maxDepth depth f = Feat.more) ∧
    (depth ≠ 0 → (quest depth = true ∨ maxDepth - 1 ≤ depth) →
      place_stairs_feat quest maxDepth depth f = Feat.less) ∧
    (depth ≠ 0 → quest depth = false → depth < maxDepth - 1 →
      place_stairs_feat quest maxDepth depth f = f) ∧
    (∀ c : Cave, ∀ y x : ℕ, c.depth = depth →
      (place_stairs quest maxDepth c y x f).feat y x =
        place_stairs_feat quest maxDepth depth f) := by
  refine ⟨?_, ?_, ?_, ?_⟩
  · intro h
    rw [place_stairs_feat, if_pos h]
  · intro h hq
    rw [place_stairs_feat, if_neg h, if_pos ?_]
    rcases hq with hq | hq
    · rw [hq]; rfl
    · rw [Bool.or_eq_true, decide_eq_true_eq]
      exact Or.inr hq
  · intro h hq hd
    rw [place_stairs_feat, if_neg h, if_neg ?_]
    rw [Bool.or_eq_true, decide_eq_true_eq, hq]
    push_neg
    exact ⟨fun hcontra => absurd hcontra (by simp), by omega⟩
  · intro c y x hc
    rw [place_stairs, cave_set_feat, hc]
    simp

/-- Witness for the place-stairs override theorem: at non-quest depth 50
the requested feature survives, and at quest depth 99 it becomes an up
staircase. -/
theorem place_stairs_override_spec_witness :
    place_stairs_feat (fun d => d == 99) 128 50 Feat.more = Feat.more ∧
    place_stairs_feat (fun d => d == 99) 128 99 Feat.more = Feat.less := by
  refine ⟨(place_stairs_override_spec (fun d => d == 99) 128 50
    Feat.more).2.2.1 (by omega) (by decide) (by omega), ?_⟩
  exact (place_stairs_override_spec (fun d => d == 99) 128 99
    Feat.more).2.1 (by omega) (Or.inl (by decide))

/-- The fields of a configured pit (`struct pit_profile`) that
`set_pit_type` reads directly: `name` (modelled as a presence flag) and
`room_type`.  The mean depth and rarity act only through the oracle
draws `offset` (`Rand_normal(pit->ave, 10)`) and `pass`
(`one_in_(pit->rarity)`). -/
structure PitEntry where
  hasName : Bool
  room_type : ℕ
deriving DecidableEq

/-- Distance score of pit `i`: `ABS(offset - depth)` for the normal draw
`offset` of that pit. -/
def pit_dist (depth : ℕ) (offset : ℕ → ℤ) (i : ℕ) : ℕ :=
  (offset i - (depth : ℤ)).natAbs

/-- The scan loop of `set_pit_type` (gen-util.c): state is
`(pit_idx, pit_dist)`, initially `(0, 999)`; pits without a name or of
the wrong room type are skipped; a scanned pit replaces the state when
its distance is strictly smaller than the held distance and it passes
the `one_in_(rarity)` roll.  The fuel argument starts at `pits.length`
and mirrors `i < z_info->pit_max`. -/
def set_pit_type_go (depth kind : ℕ) (pits : List PitEntry)
    (offset : ℕ → ℤ) (pass : ℕ → Bool) :
    ℕ → ℕ → ℕ × ℕ → ℕ × ℕ
  | 0, _, st => st
  | fuel + 1, i, st =>
    if i < pits.length then
      let pit := pits.getD i ⟨false, 0⟩
      if pit.hasName && (pit.room_type == kind) then
        if pit_dist depth offset i < st.2 && pass i then
          set_pit_type_go depth kind pits offset pass fuel (i + 1)
            (i, pit_dist depth offset i)
        else set_pit_type_go depth kind pits offset pass fuel (i + 1) st
      else set_pit_type_go depth kind pits offset pass fuel (i + 1) st
    else st

/-- Index of the pit chosen by `set_pit_type`; the chosen pit is then
installed as `pit_type`, the global monster-filter hook. -/
def set_pit_type (depth kind : ℕ) (pits : List PitEntry)
    (offset : ℕ → ℤ) (pass : ℕ → Bool) : ℕ :=
  (set_pit_type_go depth kind pits offset pass pits.length 0 (0, 999)).1

/-- A pit qualifies for selection: it exists, has a name, has the
requested room type, passes its rarity roll, and its distance beats the
999 sentinel. -/
def pit_qualifies (depth kind : ℕ) (pits : List PitEntry)
    (offset : ℕ → ℤ) (pass : ℕ → Bool) (i : ℕ) : Prop :=
  i < pits.length ∧ (pits.getD i ⟨false, 0⟩).hasName = true ∧
  (pits.getD i ⟨false, 0⟩).room_type = kind ∧ pass i = true ∧
  pit_dist depth offset i < 999

instance (depth kind : ℕ) (pits : List PitEntry) (offset : ℕ → ℤ)
    (pass : ℕ → Bool) (i : ℕ) :
    Decidable (pit_qualifies depth kind pits offset pass i) := by
  unfold pit_qualifies; infer_instance

/-- Loop invariant for `set_pit_type_go`: the state is either the
earliest qualifying pit of minimal distance among the first `i` pits,
or the untouched initial state when none of the first `i` pits
qualifies. -/
def PitInv (depth kind : ℕ) (pits : List PitEntry) (offset : ℕ → ℤ)
    (pass : ℕ → Bool) (i : ℕ) (st : ℕ × ℕ) : Prop :=
  (pit_qualifies depth kind pits offset pass st.1 ∧ st.1 < i ∧
    st.2 = pit_dist depth offset st.1 ∧
    (∀ j < i, pit_qualifies depth kind pits offset pass j →
      st.2 ≤ pit_dist depth offset j) ∧
    (∀ j < i, pit_qualifies depth kind pits offset pass j →
      pit_dist depth offset j = st.2 → st.1 ≤ j)) ∨
  (st = (0, 999) ∧
    ∀ j < i, ¬ pit_qualifies depth kind pits offset pass j)

theorem pit_inv_dist_le (depth kind : ℕ) (pits : List PitEntry)
    (offset : ℕ → ℤ) (pass : ℕ → Bool) (i : ℕ) (st : ℕ × ℕ)
    (h : PitInv depth kind pits offset pass i st) : st.2 ≤ 999 := by
  rcases h with ⟨hq, _, hd, _, _⟩ | ⟨hst, _⟩
  · rw [hd]; exact le_of_lt hq.2.2.2.2
  · rw [hst]

theorem set_pit_type_go_inv (depth kind : ℕ) (pits : List PitEntry)
    (offset : ℕ → ℤ) (pass : ℕ → Bool) :
    ∀ fuel i st, i + fuel = pits.length →
      PitInv depth kind pits offset pass i st →
      PitInv depth kind pits offset pass pits.length
        (set_pit_type_go depth kind pits offset pass fuel i st) := by
  intro fuel
  induction fuel with
  | zero =>
    intro i st hlen hinv
    have : i = pits.length := by omega
    subst this
    exact hinv
  | succ fuel ih =>
    intro i st hlen hinv
    have hi : i < pits.length := by omega
    rw [set_pit_type_go, if_pos hi]
    by_cases hmatch : ((pits.getD i ⟨false, 0⟩).hasName &&
        ((pits.getD i ⟨false, 0⟩).room_type == kind)) = true
    · rw [if_pos hmatch]
      have hmatch2 : (pits.getD i ⟨false, 0⟩).hasName = true ∧
          (pits.getD i ⟨false, 0⟩).room_type = kind := by
        rcases Bool.and_eq_true_iff.mp hmatch with ⟨h1, h2⟩
        exact ⟨h1, by simpa using h2⟩
      by_cases hcond : (decide (pit_dist depth offset i < st.2) &&
          pass i) = true
      · rw [if_pos hcond]
        rcases Bool.and_eq_true_iff.mp hcond with ⟨hdist, hpass⟩
        have hdist2 : pit_dist depth offset i < st.2 :=
          of_decide_eq_true hdist
        have hst999 : st.2 ≤ 999 :=
          pit_inv_dist_le depth kind pits offset pass i st hinv
        have hqi : pit_qualifies depth kind pits offset pass i :=
          ⟨hi, hmatch2.1, hmatch2.2, hpass, by omega⟩
        apply ih (i + 1) (i, pit_dist depth offset i) (by omega)
        left
        refine ⟨hqi, by omega, rfl, ?_, ?_⟩
        · intro j hj hqj
          rcases Nat.lt_or_ge j i with hji | hji
          · rcases hinv with ⟨_, _, _, hmin, _⟩ | ⟨_, hnone⟩
            · exact le_of_lt (lt_of_lt_of_le hdist2 (hmin j hji hqj))
            · exact absurd hqj (hnone j hji)
          · have : j = i := by omega
            subst this
            exact le_refl _
        · intro j hj hqj heq
          rcases Nat.lt_or_ge j i with hji | hji
          · rcases hinv with ⟨_, _, _, hmin, _⟩ | ⟨_, hnone⟩
            · exact absurd heq (by
                have := hmin j hji hqj
                omega)
            · exact absurd hqj (hnone j hji)
          · omega
      · rw [if_neg hcond]
        apply ih (i + 1) st (by omega)
        rcases hinv with ⟨hq, hlt, hd, hmin, htie⟩ | ⟨hst, hnone⟩
        · left
          refine ⟨hq, by omega, hd, ?_, ?_⟩
          · intro j hj hqj
            rcases Nat.lt_or_ge j i with hji | hji
            · exact hmin j hji hqj
            · have : j = i := by omega
              subst this
              have : ¬ (pit_dist depth offset j < st.2 ∧ pass j = true) := by
                intro ⟨h1, h2⟩
                exact hcond (Bool.and_eq_true_iff.mpr
                  ⟨decide_eq_true h1, h2⟩)
              rcases hqj with ⟨_, _, _, hpass, _⟩
              have h3 : ¬ pit_dist depth offset j < st.2 :=
                fun hlt2 => this ⟨hlt2, hpass⟩
              omega
          · intro j hj hqj heq
            rcases Nat.lt_or_ge j i with hji | hji
            · exact htie j hji hqj heq
            · omega
        · right
          refine ⟨hst, ?_⟩
          intro j hj
          rcases Nat.lt_or_ge j i with hji | hji
          · exact hnone j hji
          · have : j = i := by omega
            subst this
            intro hqj
            rcases hqj with ⟨_, _, _, hpass, hd999⟩
            have : ¬ (pit_dist depth offset j < st.2 ∧ pass j = true) := by
              intro ⟨h1, h2⟩
              exact hcond (Bool.and_eq_true_iff.mpr
                ⟨decide_eq_true h1, h2⟩)
            have h3 : ¬ pit_dist depth offset j < st.2 :=
              fun hlt2 => this ⟨hlt2, hpass⟩
            rw [hst] at h3
            simp only [] at h3
            omega
    · rw [if_neg hmatch]
      apply ih (i + 1) st (by omega)
      have hnq : ¬ pit_qualifies depth kind pits offset pass i := by
        intro ⟨_, h1, h2, _, _⟩
        exact hmatch (Bool.and_eq_true_iff.mpr ⟨h1, by simpa using h2⟩)
      rcases hinv with ⟨hq, hlt, hd, hmin, htie⟩ | ⟨hst, hnone⟩
      · left
        refine ⟨hq, by omega, hd, ?_, ?_⟩
        · intro j hj hqj
          rcases Nat.lt_or_ge j i with hji | hji
          · exact hmin j hji hqj
          · have : j = i := by omega
            subst this
            exact absurd hqj hnq
        · intro j hj hqj heq
          rcases Nat.lt_or_ge j i with hji | hji
          · exact htie j hji hqj heq
          · have : j = i := by omega
            subst this
            exact absurd hqj hnq
      · right
        refine ⟨hst, ?_⟩
        intro j hj
        rcases Nat.lt_or_ge j i with hji | hji
        · exact hnone j hji
        · have : j = i := by omega
          subst this
          exact hnq

/-- Counterexample to claim C8: when two pits of the requested kind tie
at the smallest distance and both pass their rarity roll, `set_pit_type`
keeps the earliest-scanned of the tied pits — here pit 1 — not pit
index 0 as the claim's tie rule says. -/
theorem set_pit_type_tie_counterexample :
    set_pit_type 30 5 [⟨true, 0⟩, ⟨true, 5⟩, ⟨true, 5⟩]
      (fun _ => 37) (fun _ => true) = 1 ∧ (1 : ℕ) ≠ 0 := by
  constructor
  · rfl
  · decide

/-- Claim C8 (amended): `set_pit_type` scores each named pit of the
requested kind by `|Normal(pit.ave, 10) − depth|` and selects the pit
with the smallest distance among those that pass their `1/pit.rarity`
roll and beat the 999 sentinel; among tied pits the earliest-scanned one
is kept (pit index 0 results only when no pit qualifies), and the
selected pit is installed as the global monster-filter hook. -/
theorem set_pit_type_spec (depth kind : ℕ) (pits : List PitEntry)
    (offset : ℕ → ℤ) (pass : ℕ → Bool) :
    ((∃ i, pit_qualifies depth kind pits offset pass i) →
      pit_qualifies depth kind pits offset pass
        (set_pit_type depth kind pits offset pass) ∧
      (∀ j, pit_qualifies depth kind pits offset pass j →
        pit_dist depth offset (set_pit_type depth kind pits offset pass) ≤
          pit_dist depth offset j) ∧
      (∀ j, pit_qualifies depth kind pits offset pass j →
        pit_dist depth offset j =
          pit_dist depth offset (set_pit_type depth kind pits offset pass) →
        set_pit_type depth kind pits offset pass ≤ j)) ∧
    ((∀ i, ¬ pit_qualifies depth kind pits offset pass i) →
      set_pit_type depth kind pits offset pass = 0) := by
  have hinv := set_pit_type_go_inv depth kind pits offset pass
    pits.length 0 (0, 999) (by omega) (Or.inr ⟨rfl, by omega⟩)
  constructor
  · intro ⟨i, hqi⟩
    rcases hinv with ⟨hq, hlt, hd, hmin, htie⟩ | ⟨hst, hnone⟩
    · refine ⟨hq, ?_, ?_⟩
      · intro j hqj
        have := hmin j hqj.1 hqj
        unfold set_pit_type
        omega
      · intro j hqj heq
        exact htie j hqj.1 hqj (by rw [heq, hd]; rfl)
    · exact absurd hqi (hnone i hqi.1)
  · intro hnone
    rcases hinv with ⟨hq, _, _, _, _⟩ | ⟨hst, _⟩
    · exact absurd hq (hnone _)
    · unfold set_pit_type
      rw [hst]

/-- Witness for the pit-selection theorem: with a single qualifying pit
of kind 5 at distance 7, that pit (index 1) is selected, and with no
qualifying pit the index defaults to 0. -/
theorem set_pit_type_spec_witness :
    set_pit_type 30 5 [⟨true, 0⟩, ⟨true, 5⟩] (fun _ => 37)
      (fun _ => true) = 1 ∧
    set_pit_type 30 5 [⟨true, 0⟩] (fun _ => 37) (fun _ => true) = 0 := by
  constructor
  · have h := (set_pit_type_spec 30 5 [⟨true, 0⟩, ⟨true, 5⟩]
      (fun _ => 37) (fun _ => true)).1 ⟨1, by decide⟩
    rcases h with ⟨hq, _, _⟩
    rcases hq with ⟨hlen, _, htype, _, _⟩
    have hr2 : set_pit_type 30 5 [⟨true, 0⟩, ⟨true, 5⟩]
        (fun _ => 37) (fun _ => true) < 2 := by simpa using hlen
    have hr0 : set_pit_type 30 5 [⟨true, 0⟩, ⟨true, 5⟩]
        (fun _ => 37) (fun _ => true) ≠ 0 := by
      intro h0
      rw [h0] at htype
      exact absurd htype (by decide)
    omega
  · exact (set_pit_type_spec 30 5 [⟨true, 0⟩] (fun _ => 37)
      (fun _ => true)).2 (by
        intro i hq
        rcases hq with ⟨hlen, _, htype, _, _⟩
        have hi0 : i = 0 := by simpa using hlen
        rw [hi0] at htype
        exact absurd htype (by decide))

/-- The per-attempt observations `cave_generate` bases its retry
decision on: the object count `o_max` and the monster count
`cave_monster_max(cave)` after the attempt has built and populated a
level. -/
structure AttemptOutcome where
  o_count : ℕ
  m_count : ℕ
deriving DecidableEq

/-- The overflow test of one generation attempt (generate.c): the
attempt fails — `error` is set and the level regenerated — exactly when
the object count reaches `z_info->o_max` or the monster count reaches
`z_info->m_max`. -/
def attempt_error (z_o z_m : ℕ) (a : AttemptOutcome) : Bool :=
  decide (z_o ≤ a.o_count) || decide (z_m ≤ a.m_count)

/-- The retry loop of `cave_generate` (generate.c):
`for (tries = 0; tries < 100 && error; tries++)`.  Attempt `t` draws
outcome `att t`; the loop ends successfully at the first attempt whose
counts stay below the maxima, returning `some t`; after 100 failed
attempts it returns `none`, on which the C code calls
`quit_fmt("cave_generate() failed 100 times!")` and aborts. -/
def cave_generate_loop (z_o z_m : ℕ) (att : ℕ → AttemptOutcome)
    (t : ℕ) : Option ℕ :=
  if h : t < 100 then
    if attempt_error z_o z_m (att t) then
      cave_generate_loop z_o z_m att (t + 1)
    else some t
  else none
termination_by 100 - t

/-- Result of `cave_generate`: the index of the successful attempt, or
`none` for the fatal 100-failure abort. -/
def cave_generate (z_o z_m : ℕ) (att : ℕ → AttemptOutcome) : Option ℕ :=
  cave_generate_loop z_o z_m att 0

/-- Number of full-level generation attempts `cave_generate` makes. -/
def cave_generate_tries (z_o z_m : ℕ) (att : ℕ → AttemptOutcome) : ℕ :=
  match cave_generate z_o z_m att with
  | some t => t + 1
  | none => 100

theorem cave_generate_loop_of_first (z_o z_m : ℕ)
    (att : ℕ → AttemptOutcome) (i : ℕ) (hi : i < 100)
    (hok : attempt_error z_o z_m (att i) = false) :
    ∀ d t, i - t = d → t ≤ i →
      (∀ j, t ≤ j → j < i → attempt_error z_o z_m (att j) = true) →
      cave_generate_loop z_o z_m att t = some i := by
  intro d
  induction d with
  | zero =>
    intro t hd hti hbad
    have : t = i := by omega
    subst this
    rw [cave_generate_loop, dif_pos hi, hok]
    rfl
  | succ d ih =>
    intro t hd hti hbad
    have hlt : t < i := by omega
    rw [cave_generate_loop, dif_pos (by omega), hbad t (le_refl t) hlt]
    exact ih (t + 1) (by omega) (by omega)
      (fun j hj hji => hbad j (by omega) hji)

theorem cave_generate_loop_of_all_bad (z_o z_m : ℕ)
    (att : ℕ → AttemptOutcome) :
    ∀ d t, 100 - t = d →
      (∀ j, t ≤ j → j < 100 → attempt_error z_o z_m (att j) = true) →
      cave_generate_loop z_o z_m att t = none := by
  intro d
  induction d with
  | zero =>
    intro t hd hbad
    rw [cave_generate_loop, dif_neg (by omega)]
  | succ d ih =>
    intro t hd hbad
    have hlt : t < 100 := by omega
    rw [cave_generate_loop, dif_pos hlt, hbad t (le_refl t) hlt]
    exact ih (t + 1) (by omega) (fun j hj hji => hbad j (by omega) hji)

/-- Claim C2: `cave_generate` makes at most 100 full-level attempts; an
attempt whose object count or monster count reaches the level-wide
maxima is discarded and a fresh attempt made; the level committed is the
first attempt below both maxima; and if all 100 attempts overflow the
function aborts (here `none`, in C `quit_fmt` with a diagnostic) instead
of returning a level. -/
theorem cave_generate_spec (z_o z_m : ℕ) (att : ℕ → AttemptOutcome) :
    (cave_generate_tries z_o z_m att ≤ 100) ∧
    (cave_generate z_o z_m att = none ↔
      ∀ i < 100, attempt_error z_o z_m (att i) = true) ∧
    (∀ t, cave_generate z_o z_m att = some t →
      t < 100 ∧ attempt_error z_o z_m (att t) = false ∧
      ∀ j < t, attempt_error z_o z_m (att j) = true) := by
  have hmain : (∃ i, i < 100 ∧ attempt_error z_o z_m (att i) = false ∧
      (∀ j < i, attempt_error z_o z_m (att j) = true) ∧
      cave_generate z_o z_m att = some i) ∨
      ((∀ i < 100, attempt_error z_o z_m (att i) = true) ∧
       cave_generate z_o z_m att = none) := by
    by_cases hex : ∃ i, i < 100 ∧ attempt_error z_o z_m (att i) = false
    · left
      have hex2 : ∃ i, i < 100 ∧ attempt_error z_o z_m (att i) = false :=
        hex
      have hspec := Nat.find_spec hex2
      refine ⟨Nat.find hex2, hspec.1, hspec.2, ?_, ?_⟩
      · intro j hj
        have := Nat.find_min hex2 hj
        push_neg at this
        cases h : attempt_error z_o z_m (att j)
        · exact absurd h (by
            intro hfalse
            exact absurd (this (by omega)) (by rw [hfalse]; simp))
        · rfl
      · apply cave_generate_loop_of_first z_o z_m att (Nat.find hex2)
          hspec.1 hspec.2 (Nat.find hex2) 0 rfl (Nat.zero_le _)
        intro j hj hji
        have := Nat.find_min hex2 hji
        push_neg at this
        cases h : attempt_error z_o z_m (att j)
        · exact absurd (this (by omega)) (by rw [h]; simp)
        · rfl
    · right
      push_neg at hex
      have hbad : ∀ i < 100, attempt_error z_o z_m (att i) = true := by
        intro i hi
        cases h : attempt_error z_o z_m (att i)
        · exact absurd h (by
            intro hfalse
            exact absurd hfalse (hex i hi))
        · rfl
      exact ⟨hbad, cave_generate_loop_of_all_bad z_o z_m att 100 0 rfl
        (fun j hj hji => hbad j hji)⟩
  refine ⟨?_, ⟨?_, ?_⟩, ?_⟩
  · rcases hmain with ⟨i, hi, _, _, heq⟩ | ⟨_, heq⟩
    · unfold cave_generate_tries
      rw [heq]
      simp only []
      omega
    · unfold cave_generate_tries
      rw [heq]
  · intro hnone
    rcases hmain with ⟨i, hi, hok, _, heq⟩ | ⟨hbad, _⟩
    · rw [heq] at hnone
      exact absurd hnone (Option.some_ne_none i)
    · exact hbad
  · intro hbad
    rcases hmain with ⟨i, hi, hok, _, heq⟩ | ⟨_, heq⟩
    · rw [hbad i hi] at hok
      exact absurd hok (by simp)
    · exact heq
  · intro t ht
    rcases hmain with ⟨i, hi, hok, hfirst, heq⟩ | ⟨_, heq⟩
    · rw [heq] at ht
      have : i = t := Option.some_injective _ ht
      subst this
      exact ⟨hi, hok, hfirst⟩
    · rw [heq] at ht
      exact absurd ht.symm (Option.some_ne_none t)

/-- Witness for the cave-generate theorem: with maxima 1024/1024 and a
first attempt holding 10 objects and 10 monsters, generation succeeds on
attempt 0 after exactly one try. -/
theorem cave_generate_spec_witness :
    cave_generate_tries 1024 1024 (fun _ => ⟨10, 10⟩) ≤ 100 ∧
    cave_generate 1024 1024 (fun _ => ⟨10, 10⟩) = some 0 := by
  have h := (cave_generate_spec 1024 1024 (fun _ => ⟨10, 10⟩)).1
  refine ⟨h, ?_⟩
  rw [cave_generate, cave_generate_loop, dif_pos (by omega)]
  norm_num [attempt_error]

/-- How many of the four cardinal neighbours of `(y, x)` are walls
(`next_to_walls` in gen-util.c). -/
def next_to_walls (c : Cave) (y x : ℕ) : ℕ :=
  (if cave_iswall c (y + 1) x then 1 else 0) +
  (if cave_iswall c (y - 1) x then 1 else 0) +
  (if cave_iswall c y (x + 1) then 1 else 0) +
  (if cave_iswall c y (x - 1) then 1 else 0)

/-- `place_stairs_feat` under normal depth conditions: outside town,
off quest depths and below the maximum depth the requested feature is
written unchanged. -/
theorem place_stairs_feat_normal (quest : ℕ → Bool) (maxDepth depth : ℕ)
    (f : Feat) (h0 : depth ≠ 0) (hq : quest depth = false)
    (hm : depth < maxDepth - 1) :
    place_stairs_feat quest maxDepth depth f = f := by
  rw [place_stairs_feat, if_neg h0, if_neg ?_]
  rw [Bool.or_eq_true, decide_eq_true_eq, hq]
  push_neg
  exact ⟨fun hcontra => absurd hcontra (by simp), by omega⟩

/-- The inner `for (j = 0; !done && j <= 1000; j++)` loop of
`alloc_stairs` (gen-util.c), with `j` counting down from 1001.  Each
iteration draws the next `find_empty` result from the `emp` stream; a
draw whose `next_to_walls` count is below the current `walls` threshold
is skipped, and otherwise `place_stairs` is called on it and the loop is
done.  The last component instruments the run: it records whether the
cell actually placed on was empty in the cave at that moment (which the
C `find_empty` guarantees when an empty cell exists). -/
def alloc_stairs_try (quest : ℕ → Bool) (maxd : ℕ) (emp : ℕ → ℕ × ℕ)
    (f : Feat) : ℕ → Cave → ℕ → ℕ → Cave × ℕ × Bool × Bool
  | 0, c, k, _ => (c, k, false, true)
  | j + 1, c, k, walls =>
    let s := emp k
    if next_to_walls c s.1 s.2 < walls then
      alloc_stairs_try quest maxd emp f j c (k + 1) walls
    else
      (place_stairs quest maxd c s.1 s.2 f, k + 1, true,
       cave_isempty c s.1 s.2)

/-- The `for (done = FALSE; !done; )` loop of `alloc_stairs`: run the
inner 1001-try loop; if it failed, decrement a positive `walls`
threshold and try again.  With `walls = 0` the inner loop always places
on its first draw, so fuel `walls + 1` always suffices; the fuel-0 base
returns a poisoned instrumentation flag and is proved unreachable. -/
def alloc_stairs_while (quest : ℕ → Bool) (maxd : ℕ) (emp : ℕ → ℕ × ℕ)
    (f : Feat) : ℕ → Cave → ℕ → ℕ → Cave × ℕ × ℕ × Bool
  | 0, c, k, walls => (c, k, walls, false)
  | fuel + 1, c, k, walls =>
    match alloc_stairs_try quest maxd emp f 1001 c k walls with
    | (c2, k2, true, ok) => (c2, k2, walls, ok)
    | (c2, k2, false, _) =>
      alloc_stairs_while quest maxd emp f fuel c2 k2 (walls - 1)

/-- `alloc_stairs(c, feat, num, walls)` (gen-util.c): place `num` stairs
of the requested type, threading the cave, the `find_empty` stream
position and the (monotonically decreasing) `walls` threshold through
the `num` placements; the final component records whether every
placement landed on a then-empty cell. -/
def alloc_stairs (quest : ℕ → Bool) (maxd : ℕ) (emp : ℕ → ℕ × ℕ)
    (f : Feat) : ℕ → Cave → ℕ → ℕ → Cave × ℕ × ℕ × Bool
  | 0, c, k, walls => (c, k, walls, true)
  | num + 1, c, k, walls =>
    match alloc_stairs_while quest maxd emp f (walls + 1) c k walls with
    | (c2, k2, w2, ok2) =>
      match alloc_stairs quest maxd emp f num c2 k2 w2 with
      | (c3, k3, w3, ok3) => (c3, k3, w3, ok2 && ok3)

/-- One observed `alloc_stairs` placement: some then-empty cell received
the `place_stairs` write. -/
def StairStep (quest : ℕ → Bool) (maxd : ℕ) (f : Feat)
    (c c2 : Cave) : Prop :=
  ∃ y x, cave_isempty c y x = true ∧
    c2 = place_stairs quest maxd c y x f

theorem alloc_stairs_try_spec (quest : ℕ → Bool) (maxd : ℕ)
    (emp : ℕ → ℕ × ℕ) (f : Feat) :
    ∀ j c k walls c2 k2 done ok,
      alloc_stairs_try quest maxd emp f j c k walls = (c2, k2, done, ok) →
      (done = false → c2 = c) ∧
      (done = true → ok = true → StairStep quest maxd f c c2) := by
  intro j
  induction j with
  | zero =>
    intro c k walls c2 k2 done ok heq
    rw [alloc_stairs_try] at heq
    injection heq with h1 heq
    injection heq with h2 heq
    injection heq with h3 h4
    subst h1; subst h3
    exact ⟨fun _ => rfl, fun hcontra _ => absurd hcontra.symm (by simp)⟩
  | succ j ih =>
    intro c k walls c2 k2 done ok heq
    rw [alloc_stairs_try] at heq
    by_cases hw : next_to_walls c (emp k).1 (emp k).2 < walls
    · rw [if_pos hw] at heq
      exact ih c (k + 1) walls c2 k2 done ok heq
    · rw [if_neg hw] at heq
      injection heq with h1 heq
      injection heq with h2 heq
      injection heq with h3 h4
      subst h1; subst h4
      refine ⟨fun hcontra => absurd (h3.trans hcontra) (by simp), ?_⟩
      intro _ hok
      exact ⟨(emp k).1, (emp k).2, hok, rfl⟩

theorem alloc_stairs_try_walls_zero (quest : ℕ → Bool) (maxd : ℕ)
    (emp : ℕ → ℕ × ℕ) (f : Feat) (j : ℕ) (c : Cave) (k : ℕ) :
    (alloc_stairs_try quest maxd emp f (j + 1) c k 0).2.2.1 = true := by
  rw [alloc_stairs_try]
  rw [if_neg (by omega)]

theorem stair_step_count (quest : ℕ → Bool) (maxd : ℕ) (f : Feat)
    (c c2 : Cave) (h : StairStep quest maxd f c c2)
    (hpf : place_stairs_feat quest maxd c.depth f ≠ Feat.floor) :
    countFeat c2 (place_stairs_feat quest maxd c.depth f) =
      countFeat c (place_stairs_feat quest maxd c.depth f) + 1 ∧
    (∀ g, g ≠ place_stairs_feat quest maxd c.depth f →
      g ≠ Feat.floor → countFeat c2 g = countFeat c g) ∧
    c2.height = c.height ∧ c2.width = c.width ∧ c2.depth = c.depth := by
  rcases h with ⟨y, x, hemp, hc2⟩
  have hbounds : y < c.height ∧ x < c.width := by
    have := (Bool.and_eq_true_iff.mp hemp).1
    exact of_decide_eq_true this
  have hfloor : c.feat y x = Feat.floor := by
    have := (Bool.and_eq_true_iff.mp hemp).2
    unfold cave_isfloor at this
    exact of_decide_eq_true this
  subst hc2
  unfold place_stairs
  refine ⟨?_, ?_, rfl, rfl, rfl⟩
  · apply countFeat_set_feat_self c y x _ hbounds.1 hbounds.2
    rw [hfloor]
    exact fun hcontra => hpf hcontra.symm
  · intro g hgpf hgfloor
    apply countFeat_set_feat_other c y x _ g hgpf
    rw [hfloor]
    exact fun hcontra => hgfloor hcontra.symm

theorem alloc_stairs_while_spec (quest : ℕ → Bool) (maxd : ℕ)
    (emp : ℕ → ℕ × ℕ) (f : Feat) :
    ∀ walls fuel c k c2 k2 w2 ok, walls + 1 ≤ fuel →
      alloc_stairs_while quest maxd emp f fuel c k walls =
        (c2, k2, w2, ok) →
      ok = true → StairStep quest maxd f c c2 := by
  intro walls
  induction walls with
  | zero =>
    intro fuel c k c2 k2 w2 ok hfuel heq hok
    rcases fuel with _ | fuel
    · omega
    · rw [alloc_stairs_while] at heq
      rcases htry : alloc_stairs_try quest maxd emp f 1001 c k 0 with
        ⟨ct, kt, done, okt⟩
      have hdone : done = true := by
        have := alloc_stairs_try_walls_zero quest maxd emp f 1000 c k
        rw [htry] at this
        exact this
      subst hdone
      rw [htry] at heq
      simp only [] at heq
      injection heq with h1 heq
      injection heq with h2 heq
      injection heq with h3 h4
      subst h1; subst h4
      exact (alloc_stairs_try_spec quest maxd emp f 1001 c k 0 ct kt
        true okt htry).2 rfl hok
  | succ w ih =>
    intro fuel c k c2 k2 w2 ok hfuel heq hok
    rcases fuel with _ | fuel
    · omega
    · rw [alloc_stairs_while] at heq
      rcases htry : alloc_stairs_try quest maxd emp f 1001 c k (w + 1) with
        ⟨ct, kt, done, okt⟩
      cases hdone : done with
      | false =>
        rw [hdone] at htry
        rw [htry] at heq
        simp only [] at heq
        have hct : ct = c :=
          (alloc_stairs_try_spec quest maxd emp f 1001 c k (w + 1) ct kt
            false okt htry).1 rfl
        rw [hct] at heq
        exact ih fuel c kt c2 k2 w2 ok (by omega) (by simpa using heq) hok
      | true =>
        rw [hdone] at htry
        rw [htry] at heq
        simp only [] at heq
        injection heq with h1 heq
        injection heq with h2 heq
        injection heq with h3 h4
        subst h1; subst h4
        exact (alloc_stairs_try_spec quest maxd emp f 1001 c k (w + 1)
          ct kt true okt htry).2 rfl hok

theorem alloc_stairs_spec (quest : ℕ → Bool) (maxd : ℕ)
    (emp : ℕ → ℕ × ℕ) (f : Feat) :
    ∀ num c k walls c3 k3 w3 ok,
      alloc_stairs quest maxd emp f num c k walls = (c3, k3, w3, ok) →
      ok = true →
      place_stairs_feat quest maxd c.depth f ≠ Feat.floor →
      countFeat c3 (place_stairs_feat quest maxd c.depth f) =
        countFeat c (place_stairs_feat quest maxd c.depth f) + num ∧
      (∀ g, g ≠ place_stairs_feat quest maxd c.depth f →
        g ≠ Feat.floor → countFeat c3 g = countFeat c g) ∧
      c3.height = c.height ∧ c3.width = c.width ∧ c3.depth = c.depth := by
  intro num
  induction num with
  | zero =>
    intro c k walls c3 k3 w3 ok heq hok hpf
    rw [alloc_stairs] at heq
    injection heq with h1 heq
    injection heq with h2 heq
    injection heq with h3 h4
    subst h1
    exact ⟨rfl, fun g _ _ => rfl, rfl, rfl, rfl⟩
  | succ num ih =>
    intro c k walls c3 k3 w3 ok heq hok hpf
    rw [alloc_stairs] at heq
    rcases hwhile : alloc_stairs_while quest maxd emp f (walls + 1) c k
      walls with ⟨c2, k2, w2, ok2⟩
    rw [hwhile] at heq
    simp only [] at heq
    rcases hrest : alloc_stairs quest maxd emp f num c2 k2 w2 with
      ⟨c3b, k3b, w3b, ok3⟩
    rw [hrest] at heq
    simp only [] at heq
    injection heq with h1 heq
    injection heq with h2 heq
    injection heq with h3 h4
    subst h1
    have hoks : ok2 = true ∧ ok3 = true :=
      Bool.and_eq_true_iff.mp (h4.trans hok)
    have hstep := alloc_stairs_while_spec quest maxd emp f walls
      (walls + 1) c k c2 k2 w2 ok2 (le_refl _) hwhile hoks.1
    have hcount := stair_step_count quest maxd f c c2 hstep hpf
    have hdepth2 : c2.depth = c.depth := hcount.2.2.2.2
    have hrest2 := ih c2 k2 w2 c3b k3b w3b ok3 hrest hoks.2 (by
      rw [hdepth2]; exact hpf)
    rw [hdepth2] at hrest2
    refine ⟨?_, ?_, ?_, ?_, ?_⟩
    · rw [hrest2.1, hcount.1]
      omega
    · intro g hg1 hg2
      rw [hrest2.2.1 g hg1 hg2, hcount.2.1 g hg1 hg2]
    · rw [hrest2.2.2.1, hcount.2.2.1]
    · rw [hrest2.2.2.2.1, hcount.2.2.2.1]
    · rw [hrest2.2.2.2.2]

theorem alloc_stairs_try_hit1001 (quest : ℕ → Bool) (maxd : ℕ)
    (emp : ℕ → ℕ × ℕ) (f : Feat) (c : Cave) (k walls : ℕ)
    (h : ¬ next_to_walls c (emp k).1 (emp k).2 < walls) :
    alloc_stairs_try quest maxd emp f 1001 c k walls =
      (place_stairs quest maxd c (emp k).1 (emp k).2 f, k + 1, true,
       cave_isempty c (emp k).1 (emp k).2) := by
  have h1001 : (1001 : ℕ) = 1000 + 1 := rfl
  rw [h1001, alloc_stairs_try, if_neg h]

theorem alloc_stairs_while_hit (quest : ℕ → Bool) (maxd : ℕ)
    (emp : ℕ → ℕ × ℕ) (f : Feat) (fuel : ℕ) (c : Cave) (k walls : ℕ)
    (h : ¬ next_to_walls c (emp k).1 (emp k).2 < walls) :
    alloc_stairs_while quest maxd emp f (fuel + 1) c k walls =
      (place_stairs quest maxd c (emp k).1 (emp k).2 f, k + 1, walls,
       cave_isempty c (emp k).1 (emp k).2) := by
  rw [alloc_stairs_while,
    alloc_stairs_try_hit1001 quest maxd emp f c k walls h]

/-- Cave after `n` further `alloc_stairs` placements when every
`find_empty` draw immediately meets the walls threshold: each placement
writes `place_stairs` at the drawn cell and advances the stream. -/
def place_stairs_iter (quest : ℕ → Bool) (maxd : ℕ) (emp : ℕ → ℕ × ℕ)
    (f : Feat) : ℕ → Cave → ℕ → Cave
  | 0, c, _ => c
  | n + 1, c, k =>
    place_stairs_iter quest maxd emp f n
      (place_stairs quest maxd c (emp k).1 (emp k).2 f) (k + 1)

/-- Conjunction of the per-placement emptiness checks along an all-hit
`alloc_stairs` run. -/
def stairs_all_empty (quest : ℕ → Bool) (maxd : ℕ) (emp : ℕ → ℕ × ℕ)
    (f : Feat) : ℕ → Cave → ℕ → Bool
  | 0, _, _ => true
  | n + 1, c, k =>
    cave_isempty c (emp k).1 (emp k).2 &&
    stairs_all_empty quest maxd emp f n
      (place_stairs quest maxd c (emp k).1 (emp k).2 f) (k + 1)

theorem alloc_stairs_all_hit (quest : ℕ → Bool) (maxd : ℕ)
    (emp : ℕ → ℕ × ℕ) (f : Feat) :
    ∀ num c k walls,
      (∀ i, i < num →
        ¬ next_to_walls (place_stairs_iter quest maxd emp f i c k)
          (emp (k + i)).1 (emp (k + i)).2 < walls) →
      alloc_stairs quest maxd emp f num c k walls =
        (place_stairs_iter quest maxd emp f num c k, k + num, walls,
         stairs_all_empty quest maxd emp f num c k) := by
  intro num
  induction num with
  | zero =>
    intro c k walls hhit
    rw [alloc_stairs, place_stairs_iter, stairs_all_empty]
    simp
  | succ num ih =>
    intro c k walls hhit
    have h0 : ¬ next_to_walls c (emp k).1 (emp k).2 < walls := by
      have := hhit 0 (by omega)
      rw [place_stairs_iter] at this
      simpa using this
    rw [alloc_stairs,
      alloc_stairs_while_hit quest maxd emp f walls c k walls h0]
    simp only []
    rw [ih (place_stairs quest maxd c (emp k).1 (emp k).2 f) (k + 1)
      walls ?_]
    · simp only []
      have e1 : place_stairs_iter quest maxd emp f (num + 1) c k =
          place_stairs_iter quest maxd emp f num
            (place_stairs quest maxd c (emp k).1 (emp k).2 f) (k + 1) := by
        rw [place_stairs_iter]
      have e2 : stairs_all_empty quest maxd emp f (num + 1) c k =
          (cave_isempty c (emp k).1 (emp k).2 &&
           stairs_all_empty quest maxd emp f num
             (place_stairs quest maxd c (emp k).1 (emp k).2 f) (k + 1)) := by
        rw [stairs_all_empty]
      rw [e1, e2]
      have e3 : k + 1 + num = k + (num + 1) := by omega
      rw [e3]
    · intro i hi
      have hstep := hhit (i + 1) (by omega)
      have e4 : place_stairs_iter quest maxd emp f (i + 1) c k =
          place_stairs_iter quest maxd emp f i
            (place_stairs quest maxd c (emp k).1 (emp k).2 f) (k + 1) := by
        rw [place_stairs_iter]
      have e5 : k + (i + 1) = k + 1 + i := by omega
      rw [e4, e5] at hstep
      exact hstep

/-- The stair-placement step of `default_gen` (generate.c):
`alloc_stairs(c, FEAT_MORE, rand_range(3, 4), 3)` followed by
`alloc_stairs(c, FEAT_LESS, rand_range(1, 2), 3)`; `nd` and `nu` are the
two `rand_range` draws.  Returns the cave, the `find_empty` stream
position, and the instrumentation flag of both runs. -/
def default_gen_stairs (quest : ℕ → Bool) (maxd : ℕ) (emp : ℕ → ℕ × ℕ)
    (c : Cave) (k nd nu : ℕ) : Cave × ℕ × Bool :=
  match alloc_stairs quest maxd emp Feat.more nd c k 3 with
  | (c2, k2, _, ok2) =>
    match alloc_stairs quest maxd emp Feat.less nu c2 k2 3 with
    | (c3, k3, _, ok3) => (c3, k3, ok2 && ok3)

/-- A one-open-cell cave at quest depth 99 used to exhibit the
`place_stairs` override inside `default_gen`'s stair placement. -/
def questCave : Cave :=
  { height := 3, width := 3, depth := 99,
    feat := fun y x =>
      if y = 1 ∧ x = 1 then Feat.floor else Feat.wallSolid }

/-- Counterexample to claim C3: on a quest depth every stair placed by
`default_gen`'s `alloc_stairs(FEAT_MORE, 3..4, 3)` call is converted by
`place_stairs` into an up staircase, so a successful build there has
zero down staircases, not 3 or 4. -/
theorem default_gen_stairs_quest_counterexample :
    countFeat (default_gen_stairs (fun d => d == 99) 128 (fun _ => (1, 1))
      questCave 0 3 1).1 Feat.more = 0 ∧
    ¬(3 ≤ countFeat (default_gen_stairs (fun d => d == 99) 128
      (fun _ => (1, 1)) questCave 0 3 1).1 Feat.more) := by
  have hrun1 := alloc_stairs_all_hit (fun d => d == 99) 128
    (fun _ => (1, 1)) Feat.more 3 questCave 0 3 (by decide)
  have hrun2 := alloc_stairs_all_hit (fun d => d == 99) 128
    (fun _ => (1, 1)) Feat.less 1
    (place_stairs_iter (fun d => d == 99) 128 (fun _ => (1, 1))
      Feat.more 3 questCave 0) (0 + 3) 3 (by decide)
  have hfinal : (default_gen_stairs (fun d => d == 99) 128
      (fun _ => (1, 1)) questCave 0 3 1).1 =
      place_stairs_iter (fun d => d == 99) 128 (fun _ => (1, 1))
        Feat.less 1
        (place_stairs_iter (fun d => d == 99) 128 (fun _ => (1, 1))
          Feat.more 3 questCave 0) (0 + 3) := by
    rw [default_gen_stairs, hrun1]
    simp only []
    rw [hrun2]
  rw [hfinal]
  have h : countFeat (place_stairs_iter (fun d => d == 99) 128
      (fun _ => (1, 1)) Feat.less 1
      (place_stairs_iter (fun d => d == 99) 128 (fun _ => (1, 1))
        Feat.more 3 questCave 0) (0 + 3)) Feat.more = 0 := by decide
  exact ⟨h, by omega⟩

/-- Claim C3 (amended): away from town, quest depths and the maximum
depth, the two `alloc_stairs` calls of `default_gen` add exactly
`nd ∈ [3,4]` down staircases and `nu ∈ [1,2]` up staircases to the
level, each placed on a then-empty cell (on a quest depth or at maximum
depth the override redirects the feature, `new_player_spot` can later
add one more staircase, and the "next to ≥ 3 walls" criterion is only
the initial threshold — it is decremented after every 1001 failed
tries, so a stair may end up next to fewer than 3 walls). -/
theorem default_gen_stairs_spec (quest : ℕ → Bool) (maxd : ℕ)
    (emp : ℕ → ℕ × ℕ) (c : Cave) (k nd nu : ℕ) (c3 : Cave) (k3 : ℕ)
    (ok : Bool)
    (heq : default_gen_stairs quest maxd emp c k nd nu = (c3, k3, ok))
    (hok : ok = true)
    (h0 : c.depth ≠ 0) (hq : quest c.depth = false)
    (hm : c.depth < maxd - 1)
    (hnd3 : 3 ≤ nd) (hnd4 : nd ≤ 4) (hnu1 : 1 ≤ nu) (hnu2 : nu ≤ 2) :
    countFeat c3 Feat.more = countFeat c Feat.more + nd ∧
    countFeat c3 Feat.less = countFeat c Feat.less + nu ∧
    (3 ≤ nd ∧ nd ≤ 4) ∧ (1 ≤ nu ∧ nu ≤ 2) := by
  have hpfm : place_stairs_feat quest maxd c.depth Feat.more =
      Feat.more := place_stairs_feat_normal quest maxd c.depth
    Feat.more h0 hq hm
  have hpfl : place_stairs_feat quest maxd c.depth Feat.less =
      Feat.less := place_stairs_feat_normal quest maxd c.depth
    Feat.less h0 hq hm
  rw [default_gen_stairs] at heq
  rcases h1 : alloc_stairs quest maxd emp Feat.more nd c k 3 with
    ⟨c2, k2, w2, ok2⟩
  rw [h1] at heq
  simp only [] at heq
  rcases h2 : alloc_stairs quest maxd emp Feat.less nu c2 k2 3 with
    ⟨c3b, k3b, w3b, ok3⟩
  rw [h2] at heq
  simp only [] at heq
  injection heq with e1 heq
  injection heq with e2 e3
  subst e1
  have hoks : ok2 = true ∧ ok3 = true :=
    Bool.and_eq_true_iff.mp (e3.trans hok)
  have hs1 := alloc_stairs_spec quest maxd emp Feat.more nd c k 3 c2 k2
    w2 ok2 h1 hoks.1 (by rw [hpfm]; simp)
  have hdepth2 : c2.depth = c.depth := hs1.2.2.2.2
  have hs2 := alloc_stairs_spec quest maxd emp Feat.less nu c2 k2 3 c3b
    k3b w3b ok3 h2 hoks.2 (by rw [hdepth2, hpfl]; simp)
  rw [hdepth2, hpfl] at hs2
  rw [hpfm] at hs1
  refine ⟨?_, ?_, ⟨hnd3, hnd4⟩, ⟨hnu1, hnu2⟩⟩
  · rw [hs2.2.1 Feat.more (by simp) (by simp), hs1.1]
  · rw [hs2.1, hs1.2.1 Feat.less (by simp) (by simp)]

/-- A cave with four isolated open cells in a row of walls, each next to
4 walls, used as a clean successful stair-placement run. -/
def stairsWitnessCave : Cave :=
  { height := 3, width := 9, depth := 50,
    feat := fun y x =>
      if y = 1 ∧ x % 2 = 1 then Feat.floor else Feat.wallSolid }

/-- Witness for the default-stairs theorem: a clean run at depth 50
placing 3 down and 1 up staircases on four distinct empty cells. -/
theorem default_gen_stairs_spec_witness :
    countFeat (default_gen_stairs (fun d => d == 99) 128
      (fun k => (1, 2 * k + 1)) stairsWitnessCave 0 3 1).1 Feat.more =
      countFeat stairsWitnessCave Feat.more + 3 ∧
    countFeat (default_gen_stairs (fun d => d == 99) 128
      (fun k => (1, 2 * k + 1)) stairsWitnessCave 0 3 1).1 Feat.less =
      countFeat stairsWitnessCave Feat.less + 1 := by
  have hrun1 := alloc_stairs_all_hit (fun d => d == 99) 128
    (fun k => (1, 2 * k + 1)) Feat.more 3 stairsWitnessCave 0 3
    (by decide)
  have hrun2 := alloc_stairs_all_hit (fun d => d == 99) 128
    (fun k => (1, 2 * k + 1)) Feat.less 1
    (place_stairs_iter (fun d => d == 99) 128 (fun k => (1, 2 * k + 1))
      Feat.more 3 stairsWitnessCave 0) (0 + 3) 3 (by decide)
  have hDG : default_gen_stairs (fun d => d == 99) 128
      (fun k => (1, 2 * k + 1)) stairsWitnessCave 0 3 1 =
      (place_stairs_iter (fun d => d == 99) 128 (fun k => (1, 2 * k + 1))
        Feat.less 1
        (place_stairs_iter (fun d => d == 99) 128
          (fun k => (1, 2 * k + 1)) Feat.more 3 stairsWitnessCave 0)
        (0 + 3),
       0 + 3 + 1,
       (stairs_all_empty (fun d => d == 99) 128 (fun k => (1, 2 * k + 1))
          Feat.more 3 stairsWitnessCave 0 &&
        stairs_all_empty (fun d => d == 99) 128 (fun k => (1, 2 * k + 1))
          Feat.less 1
          (place_stairs_iter (fun d => d == 99) 128
            (fun k => (1, 2 * k + 1)) Feat.more 3 stairsWitnessCave 0)
          (0 + 3))) := by
    rw [default_gen_stairs, hrun1]
    simp only []
    rw [hrun2]
  have h := default_gen_stairs_spec (fun d => d == 99) 128
    (fun k => (1, 2 * k + 1)) stairsWitnessCave 0 3 1 _ _ _ hDG
    (by decide) (by decide) (by decide) (by decide)
    (by omega) (by omega) (by omega) (by omega)
  rw [hDG]
  exact ⟨h.1, h.2.1⟩

/-- The stair phase of `labyrinth_gen` (labyrinth.c): first
`new_player_spot` (which may write a stair at the player spot and clears
the flag it consumed), then the three-way branch on
`OPT(birth_no_stairs)` and `p->create_down_stair` — read back from the
player structure after `new_player_spot` has already cleared it. -/
def labyrinth_stairs (quest : ℕ → Bool) (maxd : ℕ) (emp : ℕ → ℕ × ℕ)
    (c : Cave) (flags : PlayerFlags) (spot : ℕ × ℕ) (k : ℕ) :
    Cave × ℕ × Bool :=
  match new_player_spot c flags spot with
  | (c1, pf1) =>
    if pf1.birth_no_stairs then
      match alloc_stairs quest maxd emp Feat.more 1 c1 k 3 with
      | (c2, k2, _, ok2) =>
        match alloc_stairs quest maxd emp Feat.less 1 c2 k2 3 with
        | (c3, k3, _, ok3) => (c3, k3, ok2 && ok3)
    else if pf1.create_down_stair then
      match alloc_stairs quest maxd emp Feat.less 1 c1 k 3 with
      | (c2, k2, _, ok2) => (c2, k2, ok2)
    else
      match alloc_stairs quest maxd emp Feat.more 1 c1 k 3 with
      | (c2, k2, _, ok2) => (c2, k2, ok2)

/-- A two-open-cell cave at depth 20 for exercising the labyrinth stair
phase. -/
def labCave : Cave :=
  { height := 3, width := 4, depth := 20,
    feat := fun y x =>
      if y = 1 ∧ (x = 1 ∨ x = 2) then Feat.floor else Feat.wallSolid }

/-- Claim C4 is a code bug: entering a depth-20 labyrinth by taking down
stairs (`create_down_stair` set, connected stairs enabled) makes
`new_player_spot` place the down staircase and clear the flag; the
branch in labyrinth.c then reads the cleared flag, concludes the player
spot got an up staircase, and allocates another down staircase — the
level ends with two down staircases and zero up staircases, violating
"exactly one up and one down staircase" stated both by the claim and by
the comment in labyrinth.c itself.  (With neither flag set the same
branch yields one down and zero up staircases.) -/
theorem labyrinth_stairs_bug :
    countFeat (labyrinth_stairs (fun d => d == 99) 128 (fun _ => (1, 2))
      labCave ⟨false, true, false⟩ (1, 1) 0).1 Feat.more = 2 ∧
    countFeat (labyrinth_stairs (fun d => d == 99) 128 (fun _ => (1, 2))
      labCave ⟨false, true, false⟩ (1, 1) 0).1 Feat.less = 0 := by
  have hnps : new_player_spot labCave ⟨false, true, false⟩ (1, 1) =
      (cave_set_feat labCave 1 1 Feat.more, ⟨false, false, false⟩) := rfl
  have hrun := alloc_stairs_all_hit (fun d => d == 99) 128
    (fun _ => (1, 2)) Feat.more 1 (cave_set_feat labCave 1 1 Feat.more)
    0 3 (by decide)
  have hfinal : (labyrinth_stairs (fun d => d == 99) 128
      (fun _ => (1, 2)) labCave ⟨false, true, false⟩ (1, 1) 0).1 =
      place_stairs_iter (fun d => d == 99) 128 (fun _ => (1, 2))
        Feat.more 1 (cave_set_feat labCave 1 1 Feat.more) 0 := by
    rw [labyrinth_stairs, hnps]
    simp only []
    rw [if_neg (by decide), if_neg (by decide), hrun]
  rw [hfinal]
  constructor
  · decide
  · decide

/-- Two grid cells are 4-connected neighbours. -/
def adjacent {h w : ℕ} (p q : Fin h × Fin w) : Prop :=
  (p.1 = q.1 ∧ ((p.2 : ℕ) + 1 = (q.2 : ℕ) ∨ (q.2 : ℕ) + 1 = (p.2 : ℕ))) ∨
  (p.2 = q.2 ∧ ((p.1 : ℕ) + 1 = (q.1 : ℕ) ∨ (q.1 : ℕ) + 1 = (p.1 : ℕ)))

instance {h w : ℕ} (p q : Fin h × Fin w) : Decidable (adjacent p q) := by
  unfold adjacent
  infer_instance

/-- The graph whose vertices are all grid cells and whose edges join
4-adjacent floor cells; floor-to-floor reachability in this graph is the
traversal relation of the connectivity-repair pass. -/
def floorGraph {h w : ℕ} (f : Fin h × Fin w → Bool) :
    SimpleGraph (Fin h × Fin w) where
  Adj p q := f p = true ∧ f q = true ∧ adjacent p q
  symm := by
    intro p q ⟨hp, hq, hadj⟩
    refine ⟨hq, hp, ?_⟩
    rcases hadj with ⟨he, ho⟩ | ⟨he, ho⟩
    · exact Or.inl ⟨he.symm, ho.symm⟩
    · exact Or.inr ⟨he.symm, ho.symm⟩
  loopless := by
    intro p ⟨_, _, hadj⟩
    rcases hadj with ⟨_, ho⟩ | ⟨_, ho⟩ <;> omega

instance {h w : ℕ} (f : Fin h × Fin w → Bool) :
    DecidableRel (floorGraph f).Adj := fun p q => by
  change Decidable (f p = true ∧ f q = true ∧ adjacent p q)
  infer_instance

/-- All floor cells are mutually reachable by 4-connected floor
traversal. -/
def connectedFloors {h w : ℕ} (f : Fin h × Fin w → Bool) : Prop :=
  ∀ p q, f p = true → f q = true → (floorGraph f).Reachable p q

/-- Cells crossed by the monotone L-shaped corridor between `a` and `b`:
the row of `a` between the two columns, then the column of `b` between
the two rows. -/
def onL {h w : ℕ} (a b p : Fin h × Fin w) : Prop :=
  (p.1 = a.1 ∧ min (a.2 : ℕ) (b.2 : ℕ) ≤ (p.2 : ℕ) ∧
    (p.2 : ℕ) ≤ max (a.2 : ℕ) (b.2 : ℕ)) ∨
  (p.2 = b.2 ∧ min (a.1 : ℕ) (b.1 : ℕ) ≤ (p.1 : ℕ) ∧
    (p.1 : ℕ) ≤ max (a.1 : ℕ) (b.1 : ℕ))

instance {h w : ℕ} (a b p : Fin h × Fin w) : Decidable (onL a b p) := by
  unfold onL
  infer_instance

/-- Modelled from the spec: carving the L-shaped corridor between one
cell of each of two regions converts every crossed cell to floor
(section 4.5: "carve a monotone L-shaped corridor between one cell of
each, converting crossed cells to floor"). -/
def carve {h w : ℕ} (f : Fin h × Fin w → Bool) (a b : Fin h × Fin w) :
    Fin h × Fin w → Bool :=
  fun p => f p || decide (onL a b p)

theorem carve_le {h w : ℕ} (f : Fin h × Fin w → Bool)
    (a b : Fin h × Fin w) : floorGraph f ≤ floorGraph (carve f a b) := by
  intro p q ⟨hp, hq, hadj⟩
  refine ⟨?_, ?_, hadj⟩
  · unfold carve
    rw [hp]
    rfl
  · unfold carve
    rw [hq]
    rfl

theorem reach_row {h w : ℕ} (f : Fin h × Fin w → Bool) (y : Fin h) :
    ∀ n (x1 x2 : Fin w), (x1 : ℕ) + n = (x2 : ℕ) →
      (∀ x : Fin w, (x1 : ℕ) ≤ (x : ℕ) → (x : ℕ) ≤ (x2 : ℕ) →
        f (y, x) = true) →
      (floorGraph f).Reachable (y, x1) (y, x2) := by
  intro n
  induction n with
  | zero =>
    intro x1 x2 hx hf
    have hx12 : x1 = x2 := Fin.ext (by omega)
    subst hx12
    exact SimpleGraph.Reachable.refl _
  | succ n ih =>
    intro x1 x2 hx hf
    have hlt : (x1 : ℕ) + 1 < w := by
      have := x2.isLt
      omega
    have hval : ((⟨(x1 : ℕ) + 1, hlt⟩ : Fin w) : ℕ) = (x1 : ℕ) + 1 := rfl
    have hadj : (floorGraph f).Adj (y, x1) (y, ⟨(x1 : ℕ) + 1, hlt⟩) := by
      refine ⟨hf x1 (le_refl _) (by omega),
        hf ⟨(x1 : ℕ) + 1, hlt⟩ (by omega) (by rw [hval]; omega), ?_⟩
      exact Or.inl ⟨rfl, Or.inl (by rw [hval])⟩
    have hrest := ih ⟨(x1 : ℕ) + 1, hlt⟩ x2 (by rw [hval]; omega)
      (fun x hxa hxb => hf x (by rw [hval] at hxa; omega) hxb)
    exact hadj.reachable.trans hrest

theorem reach_col {h w : ℕ} (f : Fin h × Fin w → Bool) (x : Fin w) :
    ∀ n (y1 y2 : Fin h), (y1 : ℕ) + n = (y2 : ℕ) →
      (∀ y : Fin h, (y1 : ℕ) ≤ (y : ℕ) → (y : ℕ) ≤ (y2 : ℕ) →
        f (y, x) = true) →
      (floorGraph f).Reachable (y1, x) (y2, x) := by
  intro n
  induction n with
  | zero =>
    intro y1 y2 hy hf
    have hy12 : y1 = y2 := Fin.ext (by omega)
    subst hy12
    exact SimpleGraph.Reachable.refl _
  | succ n ih =>
    intro y1 y2 hy hf
    have hlt : (y1 : ℕ) + 1 < h := by
      have := y2.isLt
      omega
    have hval : ((⟨(y1 : ℕ) + 1, hlt⟩ : Fin h) : ℕ) = (y1 : ℕ) + 1 := rfl
    have hadj : (floorGraph f).Adj (y1, x) (⟨(y1 : ℕ) + 1, hlt⟩, x) := by
      refine ⟨hf y1 (le_refl _) (by omega),
        hf ⟨(y1 : ℕ) + 1, hlt⟩ (by omega) (by rw [hval]; omega), ?_⟩
      exact Or.inr ⟨rfl, Or.inl (by rw [hval])⟩
    have hrest := ih ⟨(y1 : ℕ) + 1, hlt⟩ y2 (by rw [hval]; omega)
      (fun y hya hyb => hf y (by rw [hval] at hya; omega) hyb)
    exact hadj.reachable.trans hrest

theorem reach_row_any {h w : ℕ} (f : Fin h × Fin w → Bool) (y : Fin h)
    (x1 x2 : Fin w)
    (hf : ∀ x : Fin w, min (x1 : ℕ) (x2 : ℕ) ≤ (x : ℕ) →
      (x : ℕ) ≤ max (x1 : ℕ) (x2 : ℕ) → f (y, x) = true) :
    (floorGraph f).Reachable (y, x1) (y, x2) := by
  rcases le_total (x1 : ℕ) (x2 : ℕ) with hle | hle
  · exact reach_row f y ((x2 : ℕ) - (x1 : ℕ)) x1 x2 (by omega)
      (fun x hxa hxb => hf x (by omega) (by omega))
  · exact (reach_row f y ((x1 : ℕ) - (x2 : ℕ)) x2 x1 (by omega)
      (fun x hxa hxb => hf x (by omega) (by omega))).symm

theorem reach_col_any {h w : ℕ} (f : Fin h × Fin w → Bool) (x : Fin w)
    (y1 y2 : Fin h)
    (hf : ∀ y : Fin h, min (y1 : ℕ) (y2 : ℕ) ≤ (y : ℕ) →
      (y : ℕ) ≤ max (y1 : ℕ) (y2 : ℕ) → f (y, x) = true) :
    (floorGraph f).Reachable (y1, x) (y2, x) := by
  rcases le_total (y1 : ℕ) (y2 : ℕ) with hle | hle
  · exact reach_col f x ((y2 : ℕ) - (y1 : ℕ)) y1 y2 (by omega)
      (fun y hya hyb => hf y (by omega) (by omega))
  · exact (reach_col f x ((y1 : ℕ) - (y2 : ℕ)) y2 y1 (by omega)
      (fun y hya hyb => hf y (by omega) (by omega))).symm

theorem carve_floor_of_onL {h w : ℕ} (f : Fin h × Fin w → Bool)
    (a b p : Fin h × Fin w) (hp : onL a b p) : carve f a b p = true := by
  unfold carve
  rw [decide_eq_true hp]
  exact Bool.or_true _

theorem carve_reach {h w : ℕ} (f : Fin h × Fin w → Bool)
    (a b : Fin h × Fin w) : (floorGraph (carve f a b)).Reachable a b := by
  have h1 : (floorGraph (carve f a b)).Reachable (a.1, a.2) (a.1, b.2) := by
    apply reach_row_any
    intro x hxa hxb
    exact carve_floor_of_onL f a b (a.1, x) (Or.inl ⟨rfl, hxa, hxb⟩)
  have h2 : (floorGraph (carve f a b)).Reachable (a.1, b.2) (b.1, b.2) := by
    apply reach_col_any
    intro y hya hyb
    exact carve_floor_of_onL f a b (y, b.2) (Or.inr ⟨rfl, hya, hyb⟩)
  exact h1.trans h2

theorem carve_card_lt {h w : ℕ} (f : Fin h × Fin w → Bool)
    (a b : Fin h × Fin w) (hnr : ¬ (floorGraph f).Reachable a b) :
    Fintype.card (SimpleGraph.ConnectedComponent (floorGraph (carve f a b))) <
      Fintype.card (SimpleGraph.ConnectedComponent (floorGraph f)) := by
  have hle := carve_le f a b
  let φ := fun C => SimpleGraph.ConnectedComponent.map
    (SimpleGraph.Hom.mapSpanningSubgraphs hle) C
  have hsurj : Function.Surjective φ := by
    intro c
    refine SimpleGraph.ConnectedComponent.ind ?_ c
    intro v
    refine ⟨SimpleGraph.connectedComponentMk _ v, ?_⟩
    show SimpleGraph.ConnectedComponent.map _
      (SimpleGraph.connectedComponentMk _ v) = _
    rw [SimpleGraph.ConnectedComponent.map_mk]
    rfl
  have hnotinj : ¬ Function.Injective φ := by
    intro hinj
    have hab : φ (SimpleGraph.connectedComponentMk _ a) =
        φ (SimpleGraph.connectedComponentMk _ b) := by
      show SimpleGraph.ConnectedComponent.map _
        (SimpleGraph.connectedComponentMk _ a) = SimpleGraph.ConnectedComponent.map _
        (SimpleGraph.connectedComponentMk _ b)
      rw [SimpleGraph.ConnectedComponent.map_mk,
        SimpleGraph.ConnectedComponent.map_mk]
      exact SimpleGraph.ConnectedComponent.eq.mpr (carve_reach f a b)
    exact hnr (SimpleGraph.ConnectedComponent.eq.mp (hinj hab))
  exact Fintype.card_lt_of_surjective_not_injective φ hsurj hnotinj

/-- All cells of the grid, as a list. -/
def allCells (h w : ℕ) : List (Fin h × Fin w) :=
  (List.finRange h).product (List.finRange w)

/-- Find a pair of floor cells lying in two different regions (not
connected by floor traversal), if any. -/
def findBadPair {h w : ℕ} (f : Fin h × Fin w → Bool) :
    Option ((Fin h × Fin w) × (Fin h × Fin w)) :=
  ((allCells h w).product (allCells h w)).find?
    (fun pq => f pq.1 && f pq.2 &&
      !(decide ((floorGraph f).Reachable pq.1 pq.2)))

theorem mem_allCells {h w : ℕ} (p : Fin h × Fin w) : p ∈ allCells h w := by
  unfold allCells
  rcases p with ⟨py, px⟩
  rw [List.pair_mem_product]
  exact ⟨List.mem_finRange py, List.mem_finRange px⟩

theorem findBadPair_none {h w : ℕ} (f : Fin h × Fin w → Bool)
    (hnone : findBadPair f = none) : connectedFloors f := by
  intro p q hp hq
  by_contra hnr
  have hall := List.find?_eq_none.mp hnone (p, q)
    (List.pair_mem_product.mpr ⟨mem_allCells p, mem_allCells q⟩)
  apply hall
  simp only [hp, hq, Bool.and_self, Bool.true_and, Bool.not_eq_true,
    decide_eq_false_iff_not]
  simpa using hnr

theorem findBadPair_some {h w : ℕ} (f : Fin h × Fin w → Bool)
    (pq : (Fin h × Fin w) × (Fin h × Fin w))
    (hsome : findBadPair f = some pq) :
    f pq.1 = true ∧ f pq.2 = true ∧
    ¬ (floorGraph f).Reachable pq.1 pq.2 := by
  have hpred := List.find?_some hsome
  rcases Bool.and_eq_true_iff.mp hpred with ⟨hff, hnr⟩
  rcases Bool.and_eq_true_iff.mp hff with ⟨h1, h2⟩
  refine ⟨h1, h2, ?_⟩
  intro hreach
  rw [Bool.not_eq_true', decide_eq_false_iff_not] at hnr
  exact hnr hreach

/-- Modelled from the spec (section 4.5, the inter-region bridging of
the missing `join_regions` / `ensure_connectedness`): while more than
one region remains — that is, while some pair of floor cells lies in two
different regions — pick two different regions and carve an L-shaped
corridor between one cell of each, merging the regions.  Each carve
strictly decreases the number of connected components, so fuel equal to
the component count suffices. -/
def joinLoop {h w : ℕ} : ℕ → (Fin h × Fin w → Bool) →
    (Fin h × Fin w → Bool)
  | 0 => fun f => f
  | fuel + 1 => fun f =>
    match findBadPair f with
    | none => f
    | some pq => joinLoop fuel (carve f pq.1 pq.2)

/-- The region-bridging pass: loop with fuel equal to the number of
connected components of the floor graph. -/
def join_regions {h w : ℕ} (f : Fin h × Fin w → Bool) :
    Fin h × Fin w → Bool :=
  joinLoop (Fintype.card (SimpleGraph.ConnectedComponent (floorGraph f))) f

theorem joinLoop_succ_none {h w : ℕ} (fuel : ℕ)
    (f : Fin h × Fin w → Bool) (hnone : findBadPair f = none) :
    joinLoop (fuel + 1) f = f := by
  simp only [joinLoop, hnone]

theorem joinLoop_succ_some {h w : ℕ} (fuel : ℕ)
    (f : Fin h × Fin w → Bool)
    (pq : (Fin h × Fin w) × (Fin h × Fin w))
    (hsome : findBadPair f = some pq) :
    joinLoop (fuel + 1) f = joinLoop fuel (carve f pq.1 pq.2) := by
  simp only [joinLoop, hsome]

theorem joinLoop_connected {h w : ℕ} :
    ∀ fuel (f : Fin h × Fin w → Bool),
      Fintype.card (SimpleGraph.ConnectedComponent (floorGraph f)) ≤ fuel →
      connectedFloors (joinLoop fuel f) := by
  intro fuel
  induction fuel with
  | zero =>
    intro f hcard p q hp hq
    have hempty : IsEmpty (SimpleGraph.ConnectedComponent (floorGraph f)) :=
      Fintype.card_eq_zero_iff.mp (by omega)
    exact (hempty.false (SimpleGraph.connectedComponentMk _ p)).elim
  | succ fuel ih =>
    intro f hcard
    rcases hhead : findBadPair f with _ | pq
    · rw [joinLoop_succ_none fuel f hhead]
      exact findBadPair_none f hhead
    · rw [joinLoop_succ_some fuel f pq hhead]
      rcases findBadPair_some f pq hhead with ⟨hp1, hp2, hnr⟩
      apply ih
      have := carve_card_lt f pq.1 pq.2 hnr
      omega

theorem join_regions_connected {h w : ℕ} (f : Fin h × Fin w → Bool) :
    connectedFloors (join_regions f) :=
  joinLoop_connected _ f (le_refl _)

/-- Modelled from the spec (section 4.5, culling in the missing
`build_colors`-labelled pass, as done by `clear_small_regions` for
caverns): a floor cell stays floor exactly when its region — the set of
floor cells reachable from it — has at least 9 cells; smaller regions
are solidified to wall. -/
def cull_small {h w : ℕ} (f : Fin h × Fin w → Bool) :
    Fin h × Fin w → Bool :=
  fun p => f p && decide (9 ≤
    (Finset.univ.filter
      (fun q => f q = true ∧ (floorGraph f).Reachable p q)).card)

/-- Modelled from the spec: the connectivity-repair pass
(`ensure_connectedness`, declared in gen-util.h but absent from the
provided sources) — flood-fill region labelling, small-region culling,
then inter-region bridging. -/
def ensure_connectedness {h w : ℕ} (f : Fin h × Fin w → Bool) :
    Fin h × Fin w → Bool :=
  join_regions (cull_small f)

/-- Floor map of a cave, for the connectivity-repair pass. -/
def cave_floor_map (c : Cave) : Fin c.height × Fin c.width → Bool :=
  fun p => cave_isfloor c p.1 p.2

/-- Claim C1: after the connectivity-repair pass (region labelling,
small-region culling, inter-region bridging) every floor cell of the
level is reachable from every other floor cell by 4-connected floor
traversal. -/
theorem ensure_connectedness_spec (c : Cave) :
    connectedFloors (ensure_connectedness (cave_floor_map c)) :=
  join_regions_connected (cull_small (cave_floor_map c))

end Angband
